import Mathlib

/-
  Verification of the PortalMaze core: the augmented-state BFS solver
  (src/utils/pathfinding.ts) and the generate-and-validate maze generator
  (src/utils/mazeGenerator.ts), shallowly embedded in Lean 4.

  Modelling conventions:
  - TypeScript numbers used as grid coordinates become Int (the code compares
    them with 0 and uses negative direction offsets); step counts become Nat.
  - The solver's string visitation keys "x,y,b" become triples (Int, Int, Nat).
  - The while loops become fuel-indexed recursions.  The fuel is chosen from
    the dedup bound (each state is enqueued at most once), and for the solver
    we prove the fuel is never exhausted on well-formed grids.
  - Math.random-driven choices in the generator are modelled by an explicit
    oracle of choices, so properties quantified over all randomness outcomes
    become properties quantified over all oracles.
-/

namespace PortalMaze

/-- Cell kind tag, from src/unnamed/part_000 (types): CellType. -/
inductive CellType where
  | empty | wall | start | goal | portal
deriving DecidableEq

/-- Portal color tag, from the types file: PortalColor. -/
inductive PortalColor where
  | blue | red | green | yellow
deriving DecidableEq

/-- A grid cell: coordinates, kind, optional portal color.  The React id
string is irrelevant to the algorithms and is omitted. -/
structure Cell where
  x : Int
  y : Int
  type : CellType
  portalColor : Option PortalColor := none
deriving DecidableEq

/-- Grid = Cell[][] (rows of cells, row-major). -/
abbrev Grid := List (List Cell)

abbrev Pos := Int × Int

/-- Augmented search state key (x, y, breaksUsed), the solver's "x,y,b". -/
abbrev Key := Int × Int × Nat

def rowsOf (g : Grid) : Int := (g.length : Int)

/-- grid[0].length, with 0 for an empty grid. -/
def colsOf (g : Grid) : Int := ((g.headD []).length : Int)

/-- Index lookup grid[y][x], defined (as none) outside the bounds. -/
def cellAt (g : Grid) (x y : Int) : Option Cell :=
  if 0 ≤ x ∧ 0 ≤ y then (g.get? y.toNat).bind (fun row => row.get? x.toNat)
  else none

def typeAt (g : Grid) (x y : Int) : Option CellType :=
  (cellAt g x y).map Cell.type

/-- All cells of the grid in row-major scan order (grid.forEach nesting). -/
def cellsOf (g : Grid) : List Cell := g.flatten

/-- findPortals, presented per color: the scan-order list of stored
coordinates of portal cells whose portalColor is the given color. -/
def findPortals (g : Grid) (col : PortalColor) : List Pos :=
  (cellsOf g).filterMap (fun c =>
    if c.type = CellType.portal ∧ c.portalColor = some col then some (c.x, c.y)
    else none)

/-- findEndpoints start component: last start-typed cell in scan order wins,
as in the forEach-with-assignment in the source. -/
def findStart (g : Grid) : Option Pos :=
  (cellsOf g).foldl
    (fun acc c => if c.type = CellType.start then some (c.x, c.y) else acc) none

/-- findEndpoints goal component (last goal-typed cell in scan order). -/
def findGoal (g : Grid) : Option Pos :=
  (cellsOf g).foldl
    (fun acc c => if c.type = CellType.goal then some (c.x, c.y) else acc) none

/-- Direction vectors (dx, dy): Up, Right, Down, Left - solver order. -/
def DIRECTIONS : List (Int × Int) := [(0, -1), (1, 0), (0, 1), (-1, 0)]

/-- Teleport successors of state (x, y, b): if the occupied cell is a portal
with a color and its color group has more than one member, every other member
at unchanged break count, in group scan order. -/
def teleSuccs (g : Grid) (x y : Int) (b : Nat) : List Key :=
  match cellAt g x y with
  | none => []
  | some c =>
    if c.type = CellType.portal then
      match c.portalColor with
      | none => []
      | some col =>
        if 1 < (findPortals g col).length then
          ((findPortals g col).filter (fun d => ¬(d.1 = x ∧ d.2 = y))).map
            (fun d => (d.1, d.2, b))
        else []
    else []

/-- Cardinal move successors of (x, y, b): in-bounds neighbors, walls cost one
extra break, admitted only when the new break count stays within budget. -/
def moveSuccs (g : Grid) (k : Int) (x y : Int) (b : Nat) : List Key :=
  DIRECTIONS.filterMap (fun d =>
    let nx := x + d.1
    let ny := y + d.2
    if 0 ≤ nx ∧ nx < colsOf g ∧ 0 ≤ ny ∧ ny < rowsOf g then
      match cellAt g nx ny with
      | none => none
      | some nb =>
        let nbks := if nb.type = CellType.wall then b + 1 else b
        if (nbks : Int) ≤ k then some (nx, ny, nbks) else none
    else none)

/-- All one-action successors of an augmented state, teleports first then
cardinal moves, exactly as the solver generates and enqueues them. -/
def successors (g : Grid) (k : Int) (s : Key) : List Key :=
  teleSuccs g s.1 s.2.1 s.2.2 ++ moveSuccs g k s.1 s.2.1 s.2.2

/-- Queue node of the BFS (PathNode in the source types). -/
structure PathNode where
  x : Int
  y : Int
  breaksUsed : Nat
  steps : Nat
  path : List Pos
deriving DecidableEq

def PathNode.key (n : PathNode) : Key := (n.x, n.y, n.breaksUsed)

/-- Successful solver result: { steps, path }. -/
structure SolveResult where
  steps : Nat
  path : List Pos
deriving DecidableEq

/-- Node built when pushing successor key t from current node cur. -/
def mkNode (cur : PathNode) (t : Key) : PathNode :=
  { x := t.1, y := t.2.1, breaksUsed := t.2.2, steps := cur.steps + 1,
    path := cur.path ++ [(t.1, t.2.1)] }

/-- The enqueue loop body: push each successor key that is not yet visited,
marking it visited, in order (visited grows during the fold). -/
def pushAll (cur : PathNode) : List Key → List PathNode → List Key →
    List PathNode × List Key
  | [], q, v => (q, v)
  | t :: ts, q, v =>
    if t ∈ v then pushAll cur ts q v
    else pushAll cur ts (q ++ [mkNode cur t]) (v ++ [t])

/-- The BFS while loop, fuel-indexed.  Outer none means the fuel ran out
(proved unreachable for the fuel solveMaze supplies on well-formed grids);
some (res, visited) is the loop result plus the final visitation set. -/
def bfsAux (g : Grid) (k : Int) (goal : Pos) :
    Nat → List PathNode → List Key → Option (Option SolveResult × List Key)
  | 0, _, _ => none
  | _ + 1, [], v => some (none, v)
  | fuel + 1, cur :: rest, v =>
    if cur.x = goal.1 ∧ cur.y = goal.2 then
      some (some ⟨cur.steps, cur.path⟩, v)
    else
      let p := pushAll cur (successors g k cur.key) rest v
      bfsAux g k goal fuel p.1 p.2

/-- Fuel for the BFS: the dedup bound rows*cols*(budget+1) plus slack. -/
def bfsFuel (g : Grid) (k : Int) : Nat :=
  g.length * (g.headD []).length * (k.toNat + 1) + 2

/-- solveMaze including the final visitation set as ghost output. -/
def solveMazeFull (g : Grid) (k : Int) : Option SolveResult × List Key :=
  match findStart g, findGoal g with
  | some s, some goal =>
    let startNode : PathNode :=
      { x := s.1, y := s.2, breaksUsed := 0, steps := 0, path := [(s.1, s.2)] }
    (match bfsAux g k goal (bfsFuel g k) [startNode] [(s.1, s.2, 0)] with
     | some p => p
     | none => (none, []))
  | _, _ => (none, [])

/-- solveMaze from src/utils/pathfinding.ts: null (none) when an endpoint is
missing or the goal is unreachable, otherwise the minimal steps and a path. -/
def solveMaze (g : Grid) (k : Int) : Option SolveResult :=
  (solveMazeFull g k).1

/-! ## Grid well-formedness

A grid is well-formed when it is rectangular and every cell's stored (x, y)
fields agree with its position in the row-major nesting.  Grids built by the
level editor, the demo level and the generator all have this shape; the
solver's stored-coordinate lookups (portals, endpoints) agree with its index
lookups exactly on such grids. -/

def gridRect (g : Grid) : Prop := ∀ row ∈ g, row.length = (g.headD []).length

def gridCoords (g : Grid) : Prop :=
  ∀ (yi xi : Nat) (row : List Cell) (c : Cell),
    g.get? yi = some row → row.get? xi = some c → c.x = (xi : Int) ∧ c.y = (yi : Int)

def gridWF (g : Grid) : Prop := gridRect g ∧ gridCoords g

/-- Executable row checker for coordinate agreement, used to discharge
well-formedness of concrete grids by evaluation. -/
def rowWFb (yi : Nat) : Nat → List Cell → Bool
  | _, [] => true
  | xi, c :: cs => (c.x == (xi : Int) && c.y == (yi : Int)) && rowWFb yi (xi + 1) cs

def gridRowsWFb : Nat → List (List Cell) → Bool
  | _, [] => true
  | yi, row :: rows => rowWFb yi 0 row && gridRowsWFb (yi + 1) rows

def gridWFb (g : Grid) : Bool :=
  (g.all fun row => row.length == (g.headD []).length) && gridRowsWFb 0 g

/-! ## Action-sequence semantics

ReachN n s t: some sequence of n actions (cardinal moves, wall-break moves,
portal teleports, as generated by the solver's transition rules) leads from
augmented state s to augmented state t.  walk checks a concrete list of
target positions, threading the break count deterministically. -/

def ReachN (g : Grid) (k : Int) : Nat → Key → Key → Prop
  | 0, s, t => t = s
  | n + 1, s, t => ∃ u ∈ successors g k s, ReachN g k n u t

/-- One checked step: the unique successor of s at target position p. -/
def stepTo (g : Grid) (k : Int) (s : Key) (p : Pos) : Option Key :=
  (successors g k s).find? (fun t => t.1 == p.1 && t.2.1 == p.2)

/-- Check a position list as an action sequence from s; returns the final
augmented state when every step is a legal single action. -/
def walk (g : Grid) (k : Int) : Key → List Pos → Option Key
  | s, [] => some s
  | s, p :: ps =>
    match stepTo g k s p with
    | some t => walk g k t ps
    | none => none

/-! ## State space bound -/

/-- A key lies in the solver's bounded state space: in-bounds position and
break count within budget. -/
def keyOK (g : Grid) (k : Int) (t : Key) : Prop :=
  (0 ≤ t.1 ∧ t.1 < colsOf g ∧ 0 ≤ t.2.1 ∧ t.2.1 < rowsOf g) ∧ (t.2.2 : Int) ≤ k

def encKey (g : Grid) (k : Int) (t : Key) : Nat :=
  (t.2.1.toNat * (g.headD []).length + t.1.toNat) * (k.toNat + 1) + t.2.2

/-! ## BFS invariant -/

/-- A queue node is sound: its recorded path is a checked action sequence from
the start position to its key, of length equal to its step counter. -/
def NodeOK (g : Grid) (k : Int) (s0 : Pos) (nd : PathNode) : Prop :=
  ∃ ps, nd.path = s0 :: ps ∧ ps.length = nd.steps ∧
    walk g k (s0.1, s0.2, 0) ps = some nd.key

/-- The BFS loop invariant, over the queue and the visitation set. -/
structure BfsInv (g : Grid) (k : Int) (s0 goal : Pos)
    (q : List PathNode) (v : List Key) : Prop where
  nodeOK : ∀ nd ∈ q, NodeOK g k s0 nd
  tight : ∀ nd ∈ q, ∀ n, ReachN g k n (s0.1, s0.2, 0) nd.key → nd.steps ≤ n
  mono : List.Pairwise (fun a b : PathNode => a.steps ≤ b.steps) q
  bound : ∀ hd, q.head? = some hd → ∀ nd ∈ q, nd.steps ≤ hd.steps + 1
  expandOK : ∀ u ∈ v, (∃ nd ∈ q, nd.key = u) ∨ (∀ w ∈ successors g k u, w ∈ v)
  cut : ∀ n κ, ReachN g k n (s0.1, s0.2, 0) κ → κ ∈ v ∨
    ∃ nd ∈ q, ∃ m, ReachN g k m nd.key κ ∧ nd.steps + m ≤ n
  qv : ∀ nd ∈ q, nd.key ∈ v
  goalq : ∀ u ∈ v, u.1 = goal.1 ∧ u.2.1 = goal.2 → ∃ nd ∈ q, nd.key = u
  nodup : v.Nodup
  vok : ∀ u ∈ v, keyOK g k u
  vreach : ∀ u ∈ v, ∃ n, ReachN g k n (s0.1, s0.2, 0) u

/-- What a successful solver result guarantees: its step count is realized by
an action sequence reaching the goal position, is minimal among all such
sequences, and the returned path is a checked witness. -/
def GoodResult (g : Grid) (k : Int) (s0 goal : Pos) (r : SolveResult) : Prop :=
  (∃ b, ReachN g k r.steps (s0.1, s0.2, 0) (goal.1, goal.2, b)) ∧
  (∀ n b, ReachN g k n (s0.1, s0.2, 0) (goal.1, goal.2, b) → r.steps ≤ n) ∧
  (∃ ps b, r.path = s0 :: ps ∧ ps.length = r.steps ∧
    walk g k (s0.1, s0.2, 0) ps = some (goal.1, goal.2, b))

/-- The start node the solver enqueues. -/
def startNode (s : Pos) : PathNode :=
  { x := s.1, y := s.2, breaksUsed := 0, steps := 0, path := [(s.1, s.2)] }

/-- Number of cells of a given kind in the grid. -/
def countType (g : Grid) (t : CellType) : Nat :=
  (cellsOf g).countP (fun c => c.type == t)

/-- The successor relation exactly as the specification words it: teleport to
every other cell of the same portal color (self excluded, same break count),
or a cardinal move to an in-bounds neighbor - free onto a non-wall, consuming
one break onto a wall and only within budget.  Stated from the spec text to be
compared with the successors function translated from the code. -/
def SpecSucc (g : Grid) (k : Int) (s t : Key) : Prop :=
  (∃ c, cellAt g s.1 s.2.1 = some c ∧ c.type = CellType.portal ∧
    ∃ col, c.portalColor = some col ∧
      ∃ c2 ∈ cellsOf g, c2.type = CellType.portal ∧ c2.portalColor = some col ∧
        ¬(c2.x = s.1 ∧ c2.y = s.2.1) ∧ t = (c2.x, c2.y, s.2.2)) ∨
  (∃ d ∈ DIRECTIONS,
    (0 ≤ s.1 + d.1 ∧ s.1 + d.1 < colsOf g ∧ 0 ≤ s.2.1 + d.2 ∧
      s.2.1 + d.2 < rowsOf g) ∧
    ∃ nb, cellAt g (s.1 + d.1) (s.2.1 + d.2) = some nb ∧
      ((¬nb.type = CellType.wall ∧ t = (s.1 + d.1, s.2.1 + d.2, s.2.2)) ∨
       (nb.type = CellType.wall ∧ ((s.2.2 : Int) + 1 ≤ k) ∧
         t = (s.1 + d.1, s.2.1 + d.2, s.2.2 + 1))))

/-- Concrete 1x3 corridor [start, empty, goal] (spec scenario 1). -/
def cg1 : Grid :=
  [[⟨0, 0, CellType.start, none⟩, ⟨1, 0, CellType.empty, none⟩,
    ⟨2, 0, CellType.goal, none⟩]]

/-- Concrete 1x3 corridor [start, wall, goal] (spec scenario 2). -/
def cgWall : Grid :=
  [[⟨0, 0, CellType.start, none⟩, ⟨1, 0, CellType.wall, none⟩,
    ⟨2, 0, CellType.goal, none⟩]]

/-- Concrete endpoint-free grid (caller contract violation input). -/
def cgNoEnd : Grid := [[⟨0, 0, CellType.empty, none⟩]]

/-- Concrete 2x4 grid where the goal is walled off and only reachable through
the blue portal pair (spec scenario 3). -/
def cgPortal : Grid :=
  [[⟨0, 0, CellType.start, none⟩, ⟨1, 0, CellType.portal, some PortalColor.blue⟩,
    ⟨2, 0, CellType.wall, none⟩, ⟨3, 0, CellType.goal, none⟩],
   [⟨0, 1, CellType.empty, none⟩, ⟨1, 1, CellType.portal, some PortalColor.blue⟩,
    ⟨2, 1, CellType.empty, none⟩, ⟨3, 1, CellType.empty, none⟩]]

/-! ## Maze generator (src/utils/mazeGenerator.ts)

Math.random-driven choices are modelled by a GenOracle per attempt: the carve
branch choice per iteration, the two shuffled portal indices (the source
shuffles the empties and takes the first two, i.e. draws two distinct random
positions), the per-cell loop-hole coin, and the random sector name number.
Ids (generateId) and timestamps (Date.now) are opaque to all claims and are
modelled as 0. -/

def GRID_SIZE : Nat := 10

structure GenOracle where
  carvePick : Nat → Nat
  portalPick1 : Nat
  portalPick2 : Nat
  holeFlip : Int → Int → Bool
  nameNum : Nat

/-- Level record from the types file (ids and times modelled as 0). -/
structure Level where
  id : Nat
  name : String
  grid : Grid
  maxBreaks : Int
  optimalStepsNoBreak : Option Nat
  optimalStepsWithBreak : Option Nat
  createdAt : Nat
deriving DecidableEq

/-- grid[y][x].type = t.  On coordinate-consistent grids (the only grids the
generator builds) assignment by index equals this assignment by matching the
stored coordinates, which keeps shape and coordinate facts definitional. -/
def setType (g : Grid) (x y : Int) (t : CellType) : Grid :=
  g.map (fun row => row.map (fun c =>
    if c.x = x ∧ c.y = y then { c with type := t } else c))

/-- grid[y][x].type = portal with grid[y][x].portalColor = col. -/
def setPortal (g : Grid) (x y : Int) (col : PortalColor) : Grid :=
  g.map (fun row => row.map (fun c =>
    if c.x = x ∧ c.y = y then
      { c with type := CellType.portal, portalColor := some col }
    else c))

/-- The all-wall GRID_SIZE x GRID_SIZE grid the generator starts from. -/
def initGrid : Grid :=
  (List.range GRID_SIZE).map (fun y =>
    (List.range GRID_SIZE).map (fun x =>
      ⟨(x : Int), (y : Int), CellType.wall, none⟩))

/-- Distance-2 carve directions, generator order. -/
def CARVE_DIRS : List (Int × Int) := [(0, -2), (0, 2), (-2, 0), (2, 0)]

/-- Unvisited interior lattice neighbors of (x, y), with half-steps. -/
def carveNeighbors (vis : List Pos) (x y : Int) : List (Int × Int × Int × Int) :=
  CARVE_DIRS.filterMap (fun d =>
    let nx := x + d.1
    let ny := y + d.2
    if (0 < nx ∧ nx < (GRID_SIZE : Int) - 1 ∧ 0 < ny ∧ ny < (GRID_SIZE : Int) - 1)
        ∧ ¬((nx, ny) ∈ vis) then
      some (nx, ny, d.1 / 2, d.2 / 2)
    else none)

/-- Randomized recursive-backtracking carve (stack top first in the list).
Each iteration pushes a fresh visited cell or pops, so the fuel (chosen as
twice the cell count plus slack) covers every run. -/
def carveLoop (pick : Nat → Nat) :
    Nat → Nat → List Pos → List Pos → Grid → Grid
  | 0, _, _, _, g => g
  | _ + 1, _, [], _, g => g
  | fuel + 1, t, (x, y) :: rest, vis, g =>
    let ns := carveNeighbors vis x y
    if ns.length = 0 then carveLoop pick fuel t rest vis g
    else
      let c := ns.getD (pick t % ns.length) (0, 0, 0, 0)
      carveLoop pick fuel (t + 1) ((c.1, c.2.1) :: (x, y) :: rest)
        ((c.1, c.2.1) :: vis)
        (setType (setType g (x + c.2.2.1) (y + c.2.2.2) CellType.empty)
          c.1 c.2.1 CellType.empty)

def carveFuel : Nat := 2 * GRID_SIZE * GRID_SIZE + 2

/-- Steps 1-2 of an attempt: all-wall grid, open the fixed interior start
cell, carve from it. -/
def carvedGrid (o : GenOracle) : Grid :=
  carveLoop o.carvePick carveFuel 0 [(1, 1)] [(1, 1)]
    (setType initGrid 1 1 CellType.empty)

/-- Step 3: mark the carve origin as the start cell. -/
def gridWithStart (o : GenOracle) : Grid :=
  setType (carvedGrid o) 1 1 CellType.start

/-- Goal-placement BFS move order (differs from the solver order). -/
def MOVES : List (Int × Int) := [(0, -1), (0, 1), (-1, 0), (1, 0)]

/-- Enqueue the in-bounds empty unseen neighbors at distance d + 1. -/
def distExpand (g : Grid) (x y : Int) (d : Nat) :
    List (Int × Int) → List (Int × Int × Nat) → List Pos →
      List (Int × Int × Nat) × List Pos
  | [], q, dists => (q, dists)
  | m :: ms, q, dists =>
    let nx := x + m.1
    let ny := y + m.2
    if (0 ≤ nx ∧ nx < (GRID_SIZE : Int) ∧ 0 ≤ ny ∧ ny < (GRID_SIZE : Int)) ∧
        typeAt g nx ny = some CellType.empty ∧ ¬((nx, ny) ∈ dists) then
      distExpand g x y d ms (q ++ [(nx, ny, d + 1)]) (dists ++ [(nx, ny)])
    else distExpand g x y d ms q dists

/-- Step 4 BFS: track the farthest dequeued cell (strict improvement only). -/
def distLoop (g : Grid) :
    Nat → List (Int × Int × Nat) → List Pos → Nat → Pos → Pos × Nat
  | 0, _, _, best, gp => (gp, best)
  | _ + 1, [], _, best, gp => (gp, best)
  | fuel + 1, (x, y, d) :: rest, dists, best, gp =>
    let best2 := if best < d then d else best
    let gp2 := if best < d then (x, y) else gp
    let p := distExpand g x y d MOVES rest dists
    distLoop g fuel p.1 p.2 best2 gp2

def distFuel : Nat := GRID_SIZE * GRID_SIZE + 2

/-- Step 4 result: the goal position (farthest empty cell from start) and its
BFS distance. -/
def goalScan (o : GenOracle) : Pos × Nat :=
  distLoop (gridWithStart o) distFuel [(1, 1, 0)] [(1, 1)] 0 (1, 1)

/-- Step 4 end: place the goal. -/
def gridWithGoal (o : GenOracle) : Grid :=
  setType (gridWithStart o) (goalScan o).1.1 (goalScan o).1.2 CellType.goal

/-- Empty cells in row-major scan order (step 5 collection). -/
def emptiesOf (g : Grid) : List Pos :=
  (cellsOf g).filterMap (fun c =>
    if c.type = CellType.empty then some (c.x, c.y) else none)

/-- Step 5: when at least two empty cells remain, turn two shuffle-chosen
distinct empties into the blue portal pair. -/
def placePortals (o : GenOracle) (g : Grid) : Grid :=
  let e := emptiesOf g
  if 2 ≤ e.length then
    let i := o.portalPick1 % e.length
    let j0 := o.portalPick2 % (e.length - 1)
    let j := if i ≤ j0 then j0 + 1 else j0
    let p1 := e.getD i (0, 0)
    let p2 := e.getD j (0, 0)
    setPortal (setPortal g p1.1 p1.2 PortalColor.blue) p2.1 p2.2 PortalColor.blue
  else g

/-- Interior coordinates in step 6 loop order (y outer, x inner). -/
def interiorCoords : List Pos :=
  (List.range (GRID_SIZE - 2)).flatMap (fun yi =>
    (List.range (GRID_SIZE - 2)).map (fun xi =>
      (((xi + 1 : Nat) : Int), ((yi + 1 : Nat) : Int))))

/-- Step 6: open each interior wall cell with the oracle coin (the source
draws Math.random only for wall cells; one coin per cell is the same
nondeterminism). -/
def punchHoles (o : GenOracle) (g : Grid) : Grid :=
  interiorCoords.foldl (fun acc p =>
    if typeAt acc p.1 p.2 = some CellType.wall ∧ o.holeFlip p.1 p.2 = true then
      setType acc p.1 p.2 CellType.empty
    else acc) g

/-- One full generation attempt (steps 1-6). -/
def buildAttempt (o : GenOracle) : Grid :=
  punchHoles o (placePortals o (gridWithGoal o))

/-- The fallback Level (lines 144-157): patch the LAST attempted grid in
place - (1,1) start, (2,1) empty, (3,1) goal - and claim step counts 2. -/
def fallbackOf (g : Grid) (k : Int) : Level :=
  { id := 0, name := "Fallback Level",
    grid := setType (setType (setType g 1 1 CellType.start) 2 1 CellType.empty)
      3 1 CellType.goal,
    maxBreaks := k, optimalStepsNoBreak := some 2,
    optimalStepsWithBreak := some 2, createdAt := 0 }

/-- The attempt loop: up to the remaining count, validate each attempt with
the solver at budgets 0 and k, accept on success, fall back after the last
failure (the last attempted grid stays in scope, as in the source). -/
def genLoop (o : Nat → GenOracle) (k : Int) : Nat → Nat → Grid → Level
  | 0, _, gLast => fallbackOf gLast k
  | r + 1, i, _ =>
    let g := buildAttempt (o i)
    if (solveMaze g 0).isSome && (solveMaze g k).isSome then
      { id := 0,
        name := "Random Sector " ++ toString ((o i).nameNum % 900 + 100),
        grid := g, maxBreaks := k,
        optimalStepsNoBreak := (solveMaze g 0).map SolveResult.steps,
        optimalStepsWithBreak := (solveMaze g k).map SolveResult.steps,
        createdAt := 0 }
    else genLoop o k r (i + 1) g

/-- generateRandomLevel from src/utils/mazeGenerator.ts (20 attempts). -/
def generateRandomLevel (o : Nat → GenOracle) (k : Int) : Level :=
  genLoop o k 20 0 []

/-- Adjacency by one generator BFS move. -/
def adjMove (q p : Pos) : Prop := ∃ m ∈ MOVES, p = (q.1 + m.1, q.2 + m.2)

/-- A chain of n cardinal steps from the fixed carve origin (1,1) through
in-bounds cells that are empty in g. -/
def emptyChain (g : Grid) : Nat → Pos → Prop
  | 0, p => p = (1, 1)
  | n + 1, p =>
    (0 ≤ p.1 ∧ p.1 < (GRID_SIZE : Int) ∧ 0 ≤ p.2 ∧ p.2 < (GRID_SIZE : Int)) ∧
    typeAt g p.1 p.2 = some CellType.empty ∧
    ∃ q, adjMove q p ∧ emptyChain g n q

/-- The all-zero oracle used for concrete generator runs. -/
def zeroOracle : GenOracle :=
  { carvePick := fun _ => 0, portalPick1 := 0, portalPick2 := 0,
    holeFlip := fun _ _ => false, nameNum := 0 }

lemma rowWFb_sound {yi : Nat} :
    ∀ (row : List Cell) (xi0 : Nat), rowWFb yi xi0 row = true →
      ∀ (xi : Nat) (c : Cell), row.get? xi = some c →
        c.x = ((xi0 + xi : Nat) : Int) ∧ c.y = (yi : Int) := by
  intro row
  induction row with
  | nil => intro xi0 _ xi c hc; simp [List.get?] at hc
  | cons a row ih =>
    intro xi0 h xi c hc
    simp only [rowWFb, Bool.and_eq_true, beq_iff_eq] at h
    cases xi with
    | zero =>
      simp only [List.get?] at hc
      cases hc
      exact ⟨by simpa using h.1.1, h.1.2⟩
    | succ xi =>
      simp only [List.get?] at hc
      have := ih (xi0 + 1) h.2 xi c hc
      refine ⟨?_, this.2⟩
      rw [this.1]; push_cast; ring

lemma gridRowsWFb_sound :
    ∀ (rows : List (List Cell)) (yi0 : Nat), gridRowsWFb yi0 rows = true →
      ∀ (yi xi : Nat) (row : List Cell) (c : Cell),
        rows.get? yi = some row → row.get? xi = some c →
          c.x = (xi : Int) ∧ c.y = ((yi0 + yi : Nat) : Int) := by
  intro rows
  induction rows with
  | nil => intro yi0 _ yi xi row c hr; simp [List.get?] at hr
  | cons a rows ih =>
    intro yi0 h yi xi row c hr hc
    simp only [gridRowsWFb, Bool.and_eq_true] at h
    cases yi with
    | zero =>
      simp only [List.get?] at hr
      cases hr
      have := @rowWFb_sound yi0 a 0 h.1 xi c hc
      simpa using this
    | succ yi =>
      simp only [List.get?] at hr
      have := ih (yi0 + 1) h.2 yi xi row c hr hc
      refine ⟨this.1, ?_⟩
      rw [this.2]; push_cast; ring

lemma gridWFb_sound {g : Grid} (h : gridWFb g = true) : gridWF g := by
  unfold gridWFb at h
  simp only [Bool.and_eq_true, List.all_eq_true, beq_iff_eq] at h
  refine ⟨fun row hr => h.1 row hr, ?_⟩
  intro yi xi row c hr hc
  simpa using gridRowsWFb_sound g 0 h.2 yi xi row c hr hc

/-! ## Basic lookup lemmas -/

lemma cellAt_eq_some {g : Grid} {x y : Int} {c : Cell} (h : cellAt g x y = some c) :
    0 ≤ x ∧ 0 ≤ y ∧ ∃ row, g.get? y.toNat = some row ∧ row.get? x.toNat = some c := by
  unfold cellAt at h
  split at h
  · rename_i hxy
    rcases Option.bind_eq_some.mp h with ⟨row, hrow, hc⟩
    exact ⟨hxy.1, hxy.2, row, hrow, hc⟩
  · simp at h

lemma cellAt_mem {g : Grid} {x y : Int} {c : Cell} (h : cellAt g x y = some c) :
    c ∈ cellsOf g := by
  rcases cellAt_eq_some h with ⟨-, -, row, hrow, hc⟩
  exact List.mem_flatten.mpr ⟨row, List.get?_mem hrow, List.get?_mem hc⟩

lemma cellAt_coords {g : Grid} (hg : gridWF g) {x y : Int} {c : Cell}
    (h : cellAt g x y = some c) : c.x = x ∧ c.y = y := by
  rcases cellAt_eq_some h with ⟨hx, hy, row, hrow, hc⟩
  have := hg.2 y.toNat x.toNat row c hrow hc
  omega

lemma cellAt_bounds {g : Grid} (hg : gridWF g) {x y : Int} {c : Cell}
    (h : cellAt g x y = some c) :
    0 ≤ x ∧ x < colsOf g ∧ 0 ≤ y ∧ y < rowsOf g := by
  rcases cellAt_eq_some h with ⟨hx, hy, row, hrow, hc⟩
  have hylt : y.toNat < g.length := List.get?_eq_some.mp hrow |>.1
  have hxlt : x.toNat < row.length := List.get?_eq_some.mp hc |>.1
  have hrl : row.length = (g.headD []).length := hg.1 row (List.get?_mem hrow)
  unfold colsOf rowsOf
  omega

lemma mem_cellAt {g : Grid} (hg : gridWF g) {c : Cell} (h : c ∈ cellsOf g) :
    cellAt g c.x c.y = some c := by
  rcases List.mem_flatten.mp h with ⟨row, hrow, hc⟩
  rcases List.get?_of_mem hrow with ⟨yi, hyi⟩
  rcases List.get?_of_mem hc with ⟨xi, hxi⟩
  have hco := hg.2 yi xi row c hyi hxi
  unfold cellAt
  rw [if_pos ⟨by omega, by omega⟩]
  have hx : c.x.toNat = xi := by omega
  have hy : c.y.toNat = yi := by omega
  rw [hy, hyi, Option.some_bind, hx, hxi]

lemma cellAt_of_bounds {g : Grid} (hg : gridWF g) {x y : Int}
    (hx0 : 0 ≤ x) (hx : x < colsOf g) (hy0 : 0 ≤ y) (hy : y < rowsOf g) :
    ∃ c, cellAt g x y = some c := by
  have hylt : y.toNat < g.length := by unfold rowsOf at hy; omega
  obtain ⟨row, hrow⟩ : ∃ row, g.get? y.toNat = some row :=
    ⟨g.get ⟨y.toNat, hylt⟩, List.get?_eq_get hylt⟩
  have hrl : row.length = (g.headD []).length := hg.1 row (List.get?_mem hrow)
  have hxlt : x.toNat < row.length := by unfold colsOf at hx; omega
  obtain ⟨c, hc⟩ : ∃ c, row.get? x.toNat = some c :=
    ⟨row.get ⟨x.toNat, hxlt⟩, List.get?_eq_get hxlt⟩
  exact ⟨c, by unfold cellAt; rw [if_pos ⟨hx0, hy0⟩, hrow, Option.some_bind, hc]⟩

lemma mem_findPortals {g : Grid} {col : PortalColor} {p : Pos} :
    p ∈ findPortals g col ↔
      ∃ c ∈ cellsOf g, c.type = CellType.portal ∧ c.portalColor = some col ∧
        c.x = p.1 ∧ c.y = p.2 := by
  unfold findPortals
  rw [List.mem_filterMap]
  constructor
  · rintro ⟨c, hc, hf⟩
    split at hf
    · rename_i hcond
      cases hf
      exact ⟨c, hc, hcond.1, hcond.2, rfl, rfl⟩
    · simp at hf
  · rintro ⟨c, hc, ht, hcol, hx, hy⟩
    refine ⟨c, hc, ?_⟩
    rw [if_pos ⟨ht, hcol⟩, hx, hy]

lemma findStart_spec {g : Grid} {p : Pos} (h : findStart g = some p) :
    ∃ c ∈ cellsOf g, c.type = CellType.start ∧ c.x = p.1 ∧ c.y = p.2 := by
  unfold findStart at h
  suffices H : ∀ (l : List Cell) (acc : Option Pos),
      l.foldl (fun acc c => if c.type = CellType.start then some (c.x, c.y) else acc)
        acc = some p →
      (∃ c ∈ l, c.type = CellType.start ∧ c.x = p.1 ∧ c.y = p.2) ∨ acc = some p by
    rcases H (cellsOf g) none h with h1 | h1
    · exact h1
    · simp at h1
  intro l
  induction l with
  | nil => intro acc h; simp at h; right; exact h
  | cons a l ih =>
    intro acc h
    simp only [List.foldl] at h
    rcases ih _ h with h1 | h1
    · rcases h1 with ⟨c, hc, hp⟩; exact Or.inl ⟨c, List.mem_cons_of_mem _ hc, hp⟩
    · by_cases ht : a.type = CellType.start
      · rw [if_pos ht] at h1
        cases h1
        exact Or.inl ⟨a, List.mem_cons_self _ _, ht, rfl, rfl⟩
      · rw [if_neg ht] at h1; right; exact h1

lemma findGoal_spec {g : Grid} {p : Pos} (h : findGoal g = some p) :
    ∃ c ∈ cellsOf g, c.type = CellType.goal ∧ c.x = p.1 ∧ c.y = p.2 := by
  unfold findGoal at h
  suffices H : ∀ (l : List Cell) (acc : Option Pos),
      l.foldl (fun acc c => if c.type = CellType.goal then some (c.x, c.y) else acc)
        acc = some p →
      (∃ c ∈ l, c.type = CellType.goal ∧ c.x = p.1 ∧ c.y = p.2) ∨ acc = some p by
    rcases H (cellsOf g) none h with h1 | h1
    · exact h1
    · simp at h1
  intro l
  induction l with
  | nil => intro acc h; simp at h; right; exact h
  | cons a l ih =>
    intro acc h
    simp only [List.foldl] at h
    rcases ih _ h with h1 | h1
    · rcases h1 with ⟨c, hc, hp⟩; exact Or.inl ⟨c, List.mem_cons_of_mem _ hc, hp⟩
    · by_cases ht : a.type = CellType.goal
      · rw [if_pos ht] at h1
        cases h1
        exact Or.inl ⟨a, List.mem_cons_self _ _, ht, rfl, rfl⟩
      · rw [if_neg ht] at h1; right; exact h1

lemma reachN_zero {g k} {s t : Key} : ReachN g k 0 s t ↔ t = s := Iff.rfl

lemma reachN_succ {g k n} {s t : Key} :
    ReachN g k (n + 1) s t ↔ ∃ u ∈ successors g k s, ReachN g k n u t := Iff.rfl

lemma reachN_snoc {g k} :
    ∀ {n} {s u t : Key}, ReachN g k n s u → t ∈ successors g k u →
      ReachN g k (n + 1) s t := by
  intro n
  induction n with
  | zero =>
    intro s u t hr ht
    cases hr
    exact ⟨t, ht, rfl⟩
  | succ n ih =>
    intro s u t hr ht
    rcases hr with ⟨w, hw, hr⟩
    exact ⟨w, hw, ih hr ht⟩

lemma walk_reachN {g k} : ∀ {ps : List Pos} {s t : Key},
    walk g k s ps = some t → ReachN g k ps.length s t := by
  intro ps
  induction ps with
  | nil => intro s t h; cases h; exact rfl
  | cons p ps ih =>
    intro s t h
    unfold walk at h
    split at h
    · rename_i u hu
      have hmem := List.mem_of_find?_eq_some hu
      exact ⟨u, hmem, ih h⟩
    · simp at h

lemma walk_cons {g k} {s : Key} {p : Pos} {ps : List Pos} :
    walk g k s (p :: ps) =
      match stepTo g k s p with
      | some t => walk g k t ps
      | none => none := rfl

lemma walk_append {g k} : ∀ {ps qs : List Pos} {s u t : Key},
    walk g k s ps = some u → walk g k u qs = some t →
      walk g k s (ps ++ qs) = some t := by
  intro ps
  induction ps with
  | nil => intro qs s u t h1 h2; cases h1; exact h2
  | cons p ps ih =>
    intro qs s u t h1 h2
    rw [walk_cons] at h1
    split at h1
    · rename_i w hw
      rw [List.cons_append, walk_cons, hw]
      exact ih h1 h2
    · simp at h1

/-! ## Successor structure lemmas -/

lemma mem_teleSuccs {g : Grid} {x y : Int} {b : Nat} {t : Key} :
    t ∈ teleSuccs g x y b ↔
      ∃ c, cellAt g x y = some c ∧ c.type = CellType.portal ∧
        ∃ col, c.portalColor = some col ∧ 1 < (findPortals g col).length ∧
          ∃ d ∈ findPortals g col, ¬(d.1 = x ∧ d.2 = y) ∧ t = (d.1, d.2, b) := by
  unfold teleSuccs
  constructor
  · intro h
    split at h
    · simp at h
    · rename_i c hc
      split at h
      · rename_i htyp
        split at h
        · simp at h
        · rename_i col hcol
          split at h
          · rename_i hlen
            rcases List.mem_map.mp h with ⟨d, hd, hdt⟩
            have hdm := List.mem_filter.mp hd
            exact ⟨c, hc, htyp, col, hcol, hlen, d, hdm.1,
              of_decide_eq_true hdm.2, hdt.symm⟩
          · simp at h
      · simp at h
  · rintro ⟨c, hc, htyp, col, hcol, hlen, d, hd, hne, ht⟩
    rw [hc]
    simp only [if_pos htyp]
    rw [hcol]
    simp only [if_pos hlen]
    exact List.mem_map.mpr ⟨d, List.mem_filter.mpr ⟨hd, decide_eq_true hne⟩, ht.symm⟩

lemma mem_moveSuccs {g : Grid} {k : Int} {x y : Int} {b : Nat} {t : Key} :
    t ∈ moveSuccs g k x y b ↔
      ∃ d ∈ DIRECTIONS,
        (0 ≤ x + d.1 ∧ x + d.1 < colsOf g ∧ 0 ≤ y + d.2 ∧ y + d.2 < rowsOf g) ∧
        ∃ nb, cellAt g (x + d.1) (y + d.2) = some nb ∧
          (((if nb.type = CellType.wall then b + 1 else b : Nat) : Int) ≤ k) ∧
          t = (x + d.1, y + d.2, if nb.type = CellType.wall then b + 1 else b) := by
  unfold moveSuccs
  rw [List.mem_filterMap]
  constructor
  · rintro ⟨d, hd, hf⟩
    simp only at hf
    by_cases hbounds : 0 ≤ x + d.1 ∧ x + d.1 < colsOf g ∧ 0 ≤ y + d.2 ∧ y + d.2 < rowsOf g
    · rw [if_pos hbounds] at hf
      rcases hcell : cellAt g (x + d.1) (y + d.2) with _ | nb
      · rw [hcell] at hf; simp at hf
      · rw [hcell] at hf
        simp only at hf
        by_cases hk : ((if nb.type = CellType.wall then b + 1 else b : Nat) : Int) ≤ k
        · rw [if_pos hk] at hf
          cases hf
          exact ⟨d, hd, hbounds, nb, hcell, hk, rfl⟩
        · rw [if_neg hk] at hf; simp at hf
    · rw [if_neg hbounds] at hf; simp at hf
  · rintro ⟨d, hd, hbounds, nb, hnb, hk, ht⟩
    refine ⟨d, hd, ?_⟩
    simp only
    rw [if_pos hbounds, hnb]
    simp only
    rw [if_pos hk, ht]

lemma mem_successors {g k} {s t : Key} :
    t ∈ successors g k s ↔
      t ∈ teleSuccs g s.1 s.2.1 s.2.2 ∨ t ∈ moveSuccs g k s.1 s.2.1 s.2.2 := by
  unfold successors; exact List.mem_append

/-- Teleport targets are portal-typed cells of the grid (under gridWF the
stored coordinates in the portal table are real in-bounds indices). -/
lemma teleSuccs_target {g : Grid} (hg : gridWF g) {x y : Int} {b : Nat} {t : Key}
    (h : t ∈ teleSuccs g x y b) :
    ∃ c, cellAt g t.1 t.2.1 = some c ∧ c.type = CellType.portal ∧ t.2.2 = b := by
  rcases mem_teleSuccs.mp h with ⟨c, hc, htyp, col, hcol, hlen, d, hd, hne, ht⟩
  rcases mem_findPortals.mp hd with ⟨c2, hc2, ht2, hcol2, hx2, hy2⟩
  subst ht
  have := mem_cellAt hg hc2
  rw [hx2, hy2] at this
  exact ⟨c2, this, ht2, rfl⟩

/-- Break-count structure of a successor: unchanged, or incremented within
budget when the entered cell is a wall. -/
lemma successors_breaks {g k} {s t : Key} (h : t ∈ successors g k s) :
    t.2.2 = s.2.2 ∨ (t.2.2 = s.2.2 + 1 ∧ (t.2.2 : Int) ≤ k) := by
  rcases mem_successors.mp h with h | h
  · rcases mem_teleSuccs.mp h with ⟨c, _, _, col, _, _, d, _, _, ht⟩
    left; rw [ht]
  · rcases mem_moveSuccs.mp h with ⟨d, _, _, nb, _, hk, ht⟩
    by_cases hw : nb.type = CellType.wall
    · right
      rw [if_pos hw] at hk
      rw [ht]
      exact ⟨by simp [hw], by simpa [hw] using hk⟩
    · left
      rw [ht]
      simp [hw]

/-- Successors stay within budget, assuming the source state is. -/
lemma successors_b_le {g k} {s t : Key} (hs : (s.2.2 : Int) ≤ k)
    (h : t ∈ successors g k s) : (t.2.2 : Int) ≤ k := by
  rcases successors_breaks h with h1 | h1
  · rw [h1]; exact hs
  · exact h1.2

/-- Reachable states stay within budget. -/
lemma reachN_b_le {g k} : ∀ {n} {s t : Key}, (s.2.2 : Int) ≤ k →
    ReachN g k n s t → (t.2.2 : Int) ≤ k := by
  intro n
  induction n with
  | zero => intro s t hs hr; cases hr; exact hs
  | succ n ih =>
    intro s t hs hr
    rcases hr with ⟨u, hu, hr⟩
    exact ih (successors_b_le hs hu) hr

/-- Budget monotonicity of the transition relation. -/
lemma successors_mono {g : Grid} {k kp : Int} (hk : k ≤ kp) {s t : Key}
    (h : t ∈ successors g k s) : t ∈ successors g kp s := by
  rcases mem_successors.mp h with h1 | h1
  · exact mem_successors.mpr (Or.inl h1)
  · refine mem_successors.mpr (Or.inr ?_)
    rcases mem_moveSuccs.mp h1 with ⟨d, hd, hb, nb, hnb, hkk, ht⟩
    exact mem_moveSuccs.mpr ⟨d, hd, hb, nb, hnb, le_trans hkk hk, ht⟩

lemma reachN_mono {g : Grid} {k kp : Int} (hk : k ≤ kp) :
    ∀ {n} {s t : Key}, ReachN g k n s t → ReachN g kp n s t := by
  intro n
  induction n with
  | zero => intro s t h; exact h
  | succ n ih =>
    intro s t h
    rcases h with ⟨u, hu, h⟩
    exact ⟨u, successors_mono hk hu, ih h⟩

lemma successors_keyOK {g : Grid} {k : Int} (hg : gridWF g) {s t : Key}
    (hs : keyOK g k s) (h : t ∈ successors g k s) : keyOK g k t := by
  rcases mem_successors.mp h with h1 | h1
  · rcases teleSuccs_target hg h1 with ⟨c, hc, -, hb⟩
    have hb2 : (t.2.2 : Int) ≤ k := by rw [hb]; exact hs.2
    exact ⟨cellAt_bounds hg hc, hb2⟩
  · rcases mem_moveSuccs.mp h1 with ⟨d, hd, hbounds, nb, hnb, hk, ht⟩
    subst ht
    exact ⟨hbounds, hk⟩

lemma enc_lt_aux {a A b B : Nat} (ha : a < A) (hb : b < B) : a * B + b < A * B :=
  calc a * B + b < a * B + B := by omega
  _ = (a + 1) * B := by ring
  _ ≤ A * B := Nat.mul_le_mul_right B ha

lemma enc_uniq_aux {a a2 b b2 B : Nat} (hb : b < B) (hb2 : b2 < B)
    (h : a * B + b = a2 * B + b2) : a = a2 ∧ b = b2 := by
  rcases Nat.lt_trichotomy a a2 with hlt | heq | hgt
  · have : (a + 1) * B ≤ a2 * B := Nat.mul_le_mul_right B hlt
    have : a * B + B ≤ a2 * B := by linarith [this, (by ring : (a + 1) * B = a * B + B)]
    omega
  · constructor
    · exact heq
    · subst heq; omega
  · have : (a2 + 1) * B ≤ a * B := Nat.mul_le_mul_right B hgt
    have : a2 * B + B ≤ a * B := by linarith [this, (by ring : (a2 + 1) * B = a2 * B + B)]
    omega

lemma encKey_lt {g : Grid} {k : Int} {t : Key} (h : keyOK g k t) :
    encKey g k t < g.length * (g.headD []).length * (k.toNat + 1) := by
  obtain ⟨⟨hx0, hxc, hy0, hyr⟩, hb⟩ := h
  have hxn : t.1.toNat < (g.headD []).length := by unfold colsOf at hxc; omega
  have hyn : t.2.1.toNat < g.length := by unfold rowsOf at hyr; omega
  have hbn : t.2.2 < k.toNat + 1 := by omega
  have h1 : t.2.1.toNat * (g.headD []).length + t.1.toNat <
      g.length * (g.headD []).length := enc_lt_aux hyn hxn
  have h2 := enc_lt_aux h1 hbn
  unfold encKey
  exact h2

lemma encKey_inj {g : Grid} {k : Int} {t1 t2 : Key} (h1 : keyOK g k t1)
    (h2 : keyOK g k t2) (he : encKey g k t1 = encKey g k t2) : t1 = t2 := by
  obtain ⟨⟨hx0, hxc, hy0, hyr⟩, hb⟩ := h1
  obtain ⟨⟨hx0', hxc', hy0', hyr'⟩, hb'⟩ := h2
  unfold encKey at he
  have hbn : t1.2.2 < k.toNat + 1 := by omega
  have hbn' : t2.2.2 < k.toNat + 1 := by omega
  have hstep := enc_uniq_aux hbn hbn' he
  have hxn : t1.1.toNat < (g.headD []).length := by unfold colsOf at hxc; omega
  have hxn' : t2.1.toNat < (g.headD []).length := by unfold colsOf at hxc'; omega
  have hstep2 := enc_uniq_aux hxn hxn' hstep.1
  have e1 : t1.1 = t2.1 := by omega
  have e2 : t1.2.1 = t2.2.1 := by omega
  have e3 : t1.2.2 = t2.2.2 := hstep.2
  obtain ⟨a1, b1, c1⟩ := t1
  obtain ⟨a2, b2, c2⟩ := t2
  simp only at e1 e2 e3
  rw [e1, e2, e3]

/-- Dedup bound: a duplicate-free list of in-space keys has length at most
rows * cols * (budget + 1). -/
lemma nodup_keyOK_length {g : Grid} {k : Int} {v : List Key} (hn : v.Nodup)
    (hok : ∀ u ∈ v, keyOK g k u) :
    v.length ≤ g.length * (g.headD []).length * (k.toNat + 1) := by
  set N := g.length * (g.headD []).length * (k.toNat + 1) with hN
  have hmapn : (v.map (encKey g k)).Nodup :=
    hn.map_on (fun x hx y hy hxy => encKey_inj (hok x hx) (hok y hy) hxy)
  have hsub : (v.map (encKey g k)).toFinset ⊆ Finset.range N := by
    intro a ha
    rw [List.mem_toFinset] at ha
    rcases List.mem_map.mp ha with ⟨u, hu, hau⟩
    rw [Finset.mem_range, ← hau]
    exact encKey_lt (hok u hu)
  have hcard := Finset.card_le_card hsub
  rw [Finset.card_range] at hcard
  rw [List.toFinset_card_of_nodup hmapn, List.length_map] at hcard
  exact hcard

/-! ## Position-determinism of transitions -/

/-- The break count of any successor is a function of the target cell kind:
teleport targets are portals (never walls) and keep b, moves bump b exactly on
walls.  Hence a successor is determined by its position. -/
lemma successors_target_cell {g : Grid} {k : Int} (hg : gridWF g) {s t : Key}
    (h : t ∈ successors g k s) :
    ∃ c, cellAt g t.1 t.2.1 = some c ∧
      t.2.2 = (if c.type = CellType.wall then s.2.2 + 1 else s.2.2) := by
  rcases mem_successors.mp h with h1 | h1
  · rcases teleSuccs_target hg h1 with ⟨c, hc, htyp, hb⟩
    refine ⟨c, hc, ?_⟩
    rw [if_neg (by rw [htyp]; simp), hb]
  · rcases mem_moveSuccs.mp h1 with ⟨d, hd, hbounds, nb, hnb, hk, ht⟩
    subst ht
    exact ⟨nb, hnb, rfl⟩

lemma successors_pos_unique {g : Grid} {k : Int} (hg : gridWF g) {s t1 t2 : Key}
    (h1 : t1 ∈ successors g k s) (h2 : t2 ∈ successors g k s)
    (hx : t1.1 = t2.1) (hy : t1.2.1 = t2.2.1) : t1 = t2 := by
  rcases successors_target_cell hg h1 with ⟨c, hc, hb⟩
  rcases successors_target_cell hg h2 with ⟨c2, hc2, hb2⟩
  rw [hx, hy, hc2] at hc
  cases hc
  have hb3 : t1.2.2 = t2.2.2 := by rw [hb, hb2]
  obtain ⟨a1, b1, d1⟩ := t1
  obtain ⟨a2, b2, d2⟩ := t2
  simp only at hx hy hb3
  rw [hx, hy, hb3]

lemma stepTo_eq {g : Grid} {k : Int} (hg : gridWF g) {s t : Key}
    (h : t ∈ successors g k s) : stepTo g k s (t.1, t.2.1) = some t := by
  unfold stepTo
  have hpred : (fun u : Key => u.1 == t.1 && u.2.1 == t.2.1) t = true := by simp
  have hsome : ((successors g k s).find?
      (fun u : Key => u.1 == t.1 && u.2.1 == t.2.1)).isSome := by
    rw [List.find?_isSome]
    exact ⟨t, h, hpred⟩
  rcases Option.isSome_iff_exists.mp hsome with ⟨u, hu⟩
  have humem := List.mem_of_find?_eq_some hu
  have hueq := List.find?_some hu
  simp only [Bool.and_eq_true, beq_iff_eq] at hueq
  rw [hu]
  exact congrArg some (successors_pos_unique hg humem h hueq.1 hueq.2)

lemma walk_snoc {g : Grid} {k : Int} (hg : gridWF g) {s u t : Key} {ps : List Pos}
    (hw : walk g k s ps = some u) (h : t ∈ successors g k u) :
    walk g k s (ps ++ [(t.1, t.2.1)]) = some t := by
  refine walk_append hw ?_
  rw [walk_cons, stepTo_eq hg h]
  rfl

/-- Wall entries along a checked action sequence are counted exactly by the
break counter. -/
lemma walk_breaks {g : Grid} {k : Int} (hg : gridWF g) :
    ∀ {ps : List Pos} {s t : Key}, walk g k s ps = some t →
      t.2.2 = s.2.2 +
        ps.countP (fun p => typeAt g p.1 p.2 == some CellType.wall) := by
  intro ps
  induction ps with
  | nil => intro s t h; cases h; simp
  | cons p ps ih =>
    intro s t h
    rw [walk_cons] at h
    split at h
    · rename_i u hu
      have humem := List.mem_of_find?_eq_some hu
      have hueq := List.find?_some hu
      simp only [Bool.and_eq_true, beq_iff_eq] at hueq
      rcases successors_target_cell hg humem with ⟨c, hc, hb⟩
      have hty : typeAt g p.1 p.2 = some c.type := by
        unfold typeAt
        rw [← hueq.1, ← hueq.2, hc]
        rfl
      have hcount := ih h
      rw [hcount, hb, List.countP_cons]
      by_cases hwall : c.type = CellType.wall
      · have hpt : (typeAt g p.1 p.2 == some CellType.wall) = true := by
          rw [hty, hwall]; simp
        rw [if_pos hwall, hpt, if_pos rfl]
        omega
      · have hpf : (typeAt g p.1 p.2 == some CellType.wall) = false := by
          rw [hty]
          simp only [beq_eq_false_iff_ne, ne_eq, Option.some.injEq]
          exact hwall
        rw [if_neg hwall, hpf, if_neg (by simp)]
        omega
    · simp at h

lemma mkNode_key (cur : PathNode) (t : Key) : (mkNode cur t).key = t := rfl

lemma mkNode_steps (cur : PathNode) (t : Key) :
    (mkNode cur t).steps = cur.steps + 1 := rfl

lemma nodeOK_reach {g : Grid} {k : Int} {s0 : Pos} {nd : PathNode} (h : NodeOK g k s0 nd) :
    ReachN g k nd.steps (s0.1, s0.2, 0) nd.key := by
  rcases h with ⟨ps, -, hlen, hw⟩
  rw [← hlen]
  exact walk_reachN hw

lemma nodeOK_mkNode {g : Grid} {k : Int} {s0 : Pos} (hg : gridWF g) {cur : PathNode} {t : Key}
    (h : NodeOK g k s0 cur) (ht : t ∈ successors g k cur.key) :
    NodeOK g k s0 (mkNode cur t) := by
  rcases h with ⟨ps, hpath, hlen, hw⟩
  refine ⟨ps ++ [(t.1, t.2.1)], ?_, ?_, ?_⟩
  · show cur.path ++ [(t.1, t.2.1)] = s0 :: (ps ++ [(t.1, t.2.1)])
    rw [hpath]
    rfl
  · rw [List.length_append, hlen, mkNode_steps]
    rfl
  · rw [mkNode_key]
    exact walk_snoc hg hw ht

/-- Characterization of the enqueue loop. -/
lemma pushAll_main (cur : PathNode) : ∀ (ts : List Key) (q : List PathNode)
    (v : List Key), ∃ ns ks, pushAll cur ts q v = (q ++ ns, v ++ ks) ∧
      ks = ns.map PathNode.key ∧
      (∀ nd ∈ ns, ∃ t ∈ ts, nd = mkNode cur t ∧ t ∉ v) ∧
      (∀ t ∈ ts, t ∈ v ++ ks) ∧
      (v.Nodup → (v ++ ks).Nodup) := by
  intro ts
  induction ts with
  | nil =>
    intro q v
    exact ⟨[], [], by simp [pushAll], rfl, by simp, by simp, by simp⟩
  | cons t ts ih =>
    intro q v
    by_cases hv : t ∈ v
    · rcases ih q v with ⟨ns, ks, heq, hks, hns, hmem, hnd⟩
      refine ⟨ns, ks, ?_, hks, ?_, ?_, hnd⟩
      · rw [pushAll, if_pos hv]; exact heq
      · intro nd hnd2
        rcases hns nd hnd2 with ⟨u, hu, hmk, huv⟩
        exact ⟨u, List.mem_cons_of_mem _ hu, hmk, huv⟩
      · intro u hu
        rcases List.mem_cons.mp hu with rfl | hu2
        · exact List.mem_append.mpr (Or.inl hv)
        · exact hmem u hu2
    · rcases ih (q ++ [mkNode cur t]) (v ++ [t]) with ⟨ns, ks, heq, hks, hns, hmem, hnd⟩
      refine ⟨mkNode cur t :: ns, t :: ks, ?_, ?_, ?_, ?_, ?_⟩
      · rw [pushAll, if_neg hv, heq]
        simp
      · rw [List.map_cons, ← hks, mkNode_key]
      · intro nd hnd2
        rcases List.mem_cons.mp hnd2 with rfl | hnd3
        · exact ⟨t, List.mem_cons_self _ _, rfl, hv⟩
        · rcases hns nd hnd3 with ⟨u, hu, hmk, huv⟩
          refine ⟨u, List.mem_cons_of_mem _ hu, hmk, fun hc => huv ?_⟩
          exact List.mem_append.mpr (Or.inl hc)
      · intro u hu
        rcases List.mem_cons.mp hu with rfl | hu2
        · simp
        · have := hmem u hu2
          simp only [List.append_assoc, List.singleton_append] at this
          exact this
      · intro hvn
        have : (v ++ [t]).Nodup := by
          rw [List.nodup_append]
          exact ⟨hvn, List.nodup_singleton t, by simpa using hv⟩
        have h2 := hnd this
        simpa using h2

/-- Frontier-cut extension: anything reachable from a visited state is either
visited or reachable from a pending queue node within the same step budget. -/
lemma cut_aux {g : Grid} {k : Int} {s0 : Pos} {q : List PathNode} {v : List Key}
    (hexp : ∀ u ∈ v, (∃ nd ∈ q, nd.key = u ∧
        ∀ n, ReachN g k n (s0.1, s0.2, 0) nd.key → nd.steps ≤ n) ∨
      (∀ w ∈ successors g k u, w ∈ v)) :
    ∀ (m : Nat) (u κ : Key) (a : Nat), u ∈ v → ReachN g k m u κ →
      ReachN g k a (s0.1, s0.2, 0) u →
      κ ∈ v ∨ ∃ nd ∈ q, ∃ m2, ReachN g k m2 nd.key κ ∧ nd.steps + m2 ≤ a + m := by
  intro m
  induction m with
  | zero =>
    intro u κ a hu hr _
    cases hr
    exact Or.inl hu
  | succ m ih =>
    intro u κ a hu hr ha
    rcases hr with ⟨w, hw, hr⟩
    rcases hexp u hu with ⟨nd, hnd, hkey, htight⟩ | hexpand
    · right
      refine ⟨nd, hnd, m + 1, ?_, ?_⟩
      · rw [hkey]; exact ⟨w, hw, hr⟩
      · have := htight a (by rw [hkey]; exact ha)
        omega
    · have hwv : w ∈ v := hexpand w hw
      have haw : ReachN g k (a + 1) (s0.1, s0.2, 0) w := reachN_snoc ha hw
      rcases ih w κ (a + 1) hwv hr haw with h1 | ⟨nd, hnd, m2, hrm, hle⟩
      · exact Or.inl h1
      · exact Or.inr ⟨nd, hnd, m2, hrm, by omega⟩

/-- One dequeue-and-expand step of the BFS preserves the loop invariant. -/
lemma inv_step {g : Grid} {k : Int} {s0 goal : Pos} {cur : PathNode}
    {rest : List PathNode} {v : List Key} (hg : gridWF g)
    (hinv : BfsInv g k s0 goal (cur :: rest) v)
    (hngoal : ¬(cur.x = goal.1 ∧ cur.y = goal.2)) :
    BfsInv g k s0 goal (pushAll cur (successors g k cur.key) rest v).1
      (pushAll cur (successors g k cur.key) rest v).2 := by
  obtain ⟨ns, ks, heq, hks, hns, hmem, hndp⟩ :=
    pushAll_main cur (successors g k cur.key) rest v
  rw [heq]
  have hcurq : cur ∈ cur :: rest := List.mem_cons_self _ _
  have hcurOK : NodeOK g k s0 cur := hinv.nodeOK cur hcurq
  have hcurv : cur.key ∈ v := hinv.qv cur hcurq
  have hcr : ∀ a ∈ rest, cur.steps ≤ a.steps :=
    (List.pairwise_cons.mp hinv.mono).1
  have hmono_rest : List.Pairwise (fun a b : PathNode => a.steps ≤ b.steps) rest :=
    (List.pairwise_cons.mp hinv.mono).2
  have hheadmin : ∀ nd ∈ cur :: rest, cur.steps ≤ nd.steps := by
    intro nd hnd
    rcases List.mem_cons.mp hnd with rfl | hnd2
    · exact le_refl _
    · exact hcr nd hnd2
  have hnsall : ∀ nd ∈ ns, ∃ t ∈ successors g k cur.key,
      nd = mkNode cur t ∧ t ∉ v := hns
  have hnskey : ∀ nd ∈ ns, nd.key ∈ successors g k cur.key ∧ nd.key ∉ v ∧
      nd.steps = cur.steps + 1 ∧ NodeOK g k s0 nd := by
    intro nd hnd
    rcases hnsall nd hnd with ⟨t, ht, rfl, htv⟩
    rw [mkNode_key]
    exact ⟨ht, htv, rfl, nodeOK_mkNode hg hcurOK ht⟩
  have hksnode : ∀ u ∈ ks, ∃ nd ∈ ns, nd.key = u := by
    rw [hks]
    intro u hu
    rcases List.mem_map.mp hu with ⟨nd, hnd, hk2⟩
    exact ⟨nd, hnd, hk2⟩
  have hnsks : ∀ nd ∈ ns, nd.key ∈ ks := by
    rw [hks]
    intro nd hnd
    exact List.mem_map.mpr ⟨nd, hnd, rfl⟩
  -- individual fields
  have nodeOK' : ∀ nd ∈ rest ++ ns, NodeOK g k s0 nd := by
    intro nd hnd
    rcases List.mem_append.mp hnd with h1 | h1
    · exact hinv.nodeOK nd (List.mem_cons_of_mem _ h1)
    · exact (hnskey nd h1).2.2.2
  have tight' : ∀ nd ∈ rest ++ ns, ∀ n,
      ReachN g k n (s0.1, s0.2, 0) nd.key → nd.steps ≤ n := by
    intro nd hnd n hn
    rcases List.mem_append.mp hnd with h1 | h1
    · exact hinv.tight nd (List.mem_cons_of_mem _ h1) n hn
    · obtain ⟨hsucc, hnv, hsteps, -⟩ := hnskey nd h1
      rw [hsteps]
      by_cases hle : n ≤ cur.steps
      · exfalso
        rcases hinv.cut n nd.key hn with hv | ⟨nd2, hnd2, m, hrm, hlem⟩
        · exact hnv hv
        · have h1min := hheadmin nd2 hnd2
          have hm0 : m = 0 := by omega
          subst hm0
          have hkeq : nd.key = nd2.key := hrm
          rw [hkeq] at hnv
          exact hnv (hinv.qv nd2 hnd2)
      · omega
  have expandOK' : ∀ u ∈ v ++ ks,
      (∃ nd ∈ rest ++ ns, nd.key = u) ∨
        (∀ w ∈ successors g k u, w ∈ v ++ ks) := by
    intro u hu
    rcases List.mem_append.mp hu with h1 | h1
    · rcases hinv.expandOK u h1 with ⟨nd, hnd, hkey⟩ | hexp
      · rcases List.mem_cons.mp hnd with rfl | hnd2
        · right
          intro w hw
          rw [← hkey] at hw
          exact hmem w hw
        · exact Or.inl ⟨nd, List.mem_append.mpr (Or.inl hnd2), hkey⟩
      · right
        intro w hw
        exact List.mem_append.mpr (Or.inl (hexp w hw))
    · rcases hksnode u h1 with ⟨nd, hnd, hkey⟩
      exact Or.inl ⟨nd, List.mem_append.mpr (Or.inr hnd), hkey⟩
  have vok' : ∀ u ∈ v ++ ks, keyOK g k u := by
    intro u hu
    rcases List.mem_append.mp hu with h1 | h1
    · exact hinv.vok u h1
    · rcases hksnode u h1 with ⟨nd, hnd, hkey⟩
      rw [← hkey]
      exact successors_keyOK hg (hinv.vok cur.key hcurv) (hnskey nd hnd).1
  have vreach' : ∀ u ∈ v ++ ks, ∃ n, ReachN g k n (s0.1, s0.2, 0) u := by
    intro u hu
    rcases List.mem_append.mp hu with h1 | h1
    · exact hinv.vreach u h1
    · rcases hksnode u h1 with ⟨nd, hnd, hkey⟩
      rw [← hkey]
      exact ⟨cur.steps + 1, reachN_snoc (nodeOK_reach hcurOK) (hnskey nd hnd).1⟩
  refine ⟨nodeOK', tight', ?_, ?_, expandOK', ?_, ?_, ?_, hndp hinv.nodup, vok', vreach'⟩
  · -- mono
    rw [List.pairwise_append]
    refine ⟨hmono_rest, ?_, ?_⟩
    · exact List.pairwise_of_forall_mem_list
        (fun a ha b hb => by
          rw [(hnskey a ha).2.2.1, (hnskey b hb).2.2.1])
    · intro a ha b hb
      have h1 := hinv.bound cur rfl a (List.mem_cons_of_mem _ ha)
      rw [(hnskey b hb).2.2.1]
      exact h1
  · -- bound
    intro hd hhd nd hnd
    cases hrest : rest with
    | nil =>
      subst hrest
      simp only [List.nil_append] at hhd hnd
      have h1 := (hnskey hd (List.mem_of_mem_head? hhd)).2.2.1
      have h2 := (hnskey nd hnd).2.2.1
      omega
    | cons r rest2 =>
      subst hrest
      have hhd2 : hd = r := by
        rw [List.cons_append] at hhd
        simpa using hhd.symm
      subst hhd2
      have hcurhd : cur.steps ≤ hd.steps := hcr hd (List.mem_cons_self _ _)
      rcases List.mem_append.mp hnd with h1 | h1
      · have := hinv.bound cur rfl nd (List.mem_cons_of_mem _ h1)
        omega
      · have := (hnskey nd h1).2.2.1
        omega
  · -- cut
    intro n κ hr
    by_cases hκ : κ ∈ v ++ ks
    · exact Or.inl hκ
    · have hκv : κ ∉ v := fun hc => hκ (List.mem_append.mpr (Or.inl hc))
      rcases hinv.cut n κ hr with hv | ⟨nd, hnd, m, hrm, hle⟩
      · exact absurd hv hκv
      · rcases List.mem_cons.mp hnd with rfl | hnd2
        · -- the pending predecessor was the node just expanded
          have hexp2 : ∀ u ∈ v ++ ks, (∃ nd2 ∈ rest ++ ns, nd2.key = u ∧
              ∀ n2, ReachN g k n2 (s0.1, s0.2, 0) nd2.key → nd2.steps ≤ n2) ∨
              (∀ w ∈ successors g k u, w ∈ v ++ ks) := by
            intro u hu
            rcases expandOK' u hu with ⟨nd2, hnd2, hkey⟩ | hx
            · exact Or.inl ⟨nd2, hnd2, hkey, tight' nd2 hnd2⟩
            · exact Or.inr hx
          have hcurv2 : nd.key ∈ v ++ ks := List.mem_append.mpr (Or.inl hcurv)
          have hreach0 : ReachN g k nd.steps (s0.1, s0.2, 0) nd.key :=
            nodeOK_reach hcurOK
          rcases cut_aux hexp2 m nd.key κ nd.steps hcurv2 hrm hreach0 with h1 |
            ⟨nd2, hnd2, m2, hrm2, hle2⟩
          · exact absurd h1 hκ
          · exact Or.inr ⟨nd2, hnd2, m2, hrm2, by omega⟩
        · exact Or.inr ⟨nd, List.mem_append.mpr (Or.inl hnd2), m, hrm, hle⟩
  · -- qv
    intro nd hnd
    rcases List.mem_append.mp hnd with h1 | h1
    · exact List.mem_append.mpr (Or.inl (hinv.qv nd (List.mem_cons_of_mem _ h1)))
    · exact List.mem_append.mpr (Or.inr (hnsks nd h1))
  · -- goalq
    intro u hu hupos
    rcases List.mem_append.mp hu with h1 | h1
    · rcases hinv.goalq u h1 hupos with ⟨nd, hnd, hkey⟩
      rcases List.mem_cons.mp hnd with rfl | hnd2
      · exfalso
        apply hngoal
        constructor
        · show nd.key.1 = goal.1
          rw [hkey]; exact hupos.1
        · show nd.key.2.1 = goal.2
          rw [hkey]; exact hupos.2
      · exact ⟨nd, List.mem_append.mpr (Or.inl hnd2), hkey⟩
    · rcases hksnode u h1 with ⟨nd, hnd, hkey⟩
      exact ⟨nd, List.mem_append.mpr (Or.inr hnd), hkey⟩

/-- The BFS loop: with invariant and sufficient fuel it produces a result and
final visitation set with the desired properties. -/
lemma bfs_run {g : Grid} {k : Int} {s0 goal : Pos} (hg : gridWF g) :
    ∀ (fuel : Nat) (q : List PathNode) (v : List Key),
      BfsInv g k s0 goal q v →
      1 + q.length + (g.length * (g.headD []).length * (k.toNat + 1) - v.length)
        ≤ fuel →
      ∃ res vf, bfsAux g k goal fuel q v = some (res, vf) ∧
        (res = none →
          ∀ n b, ¬ ReachN g k n (s0.1, s0.2, 0) (goal.1, goal.2, b)) ∧
        (∀ r, res = some r → GoodResult g k s0 goal r) ∧
        vf.Nodup ∧ (∀ u ∈ vf, keyOK g k u) ∧
        (∀ u ∈ vf, ∃ n, ReachN g k n (s0.1, s0.2, 0) u) ∧ v ⊆ vf := by
  intro fuel
  induction fuel with
  | zero =>
    intro q v _ hfuel
    omega
  | succ fuel ih =>
    intro q v hinv hfuel
    cases q with
    | nil =>
      refine ⟨none, v, rfl, ?_, by simp, hinv.nodup, hinv.vok, hinv.vreach,
        List.Subset.refl v⟩
      intro _ n b hr
      rcases hinv.cut n (goal.1, goal.2, b) hr with hv | ⟨nd, hnd, -⟩
      · rcases hinv.goalq _ hv ⟨rfl, rfl⟩ with ⟨nd, hnd, -⟩
        simp at hnd
      · simp at hnd
    | cons cur rest =>
      by_cases hgoal : cur.x = goal.1 ∧ cur.y = goal.2
      · have heqn : bfsAux g k goal (fuel + 1) (cur :: rest) v =
            some (some ⟨cur.steps, cur.path⟩, v) := by
          simp only [bfsAux]
          rw [if_pos hgoal]
        refine ⟨some ⟨cur.steps, cur.path⟩, v, heqn, by simp, ?_, hinv.nodup,
          hinv.vok, hinv.vreach, List.Subset.refl v⟩
        intro r hr
        cases hr
        have hcurq : cur ∈ cur :: rest := List.mem_cons_self _ _
        obtain ⟨ps, hpath, hlen, hw⟩ := hinv.nodeOK cur hcurq
        have hkey : cur.key = (goal.1, goal.2, cur.breaksUsed) := by
          unfold PathNode.key
          rw [hgoal.1, hgoal.2]
        have hheadmin : ∀ nd ∈ cur :: rest, cur.steps ≤ nd.steps := by
          intro nd hnd
          rcases List.mem_cons.mp hnd with rfl | hnd2
          · exact le_refl _
          · exact (List.pairwise_cons.mp hinv.mono).1 nd hnd2
        refine ⟨⟨cur.breaksUsed, ?_⟩, ?_, ps, cur.breaksUsed, hpath, hlen, ?_⟩
        · rw [← hkey]
          exact nodeOK_reach ⟨ps, hpath, hlen, hw⟩
        · intro n b hr
          show cur.steps ≤ n
          by_cases hv : ((goal.1, goal.2, b) : Key) ∈ v
          · rcases hinv.goalq _ hv ⟨rfl, rfl⟩ with ⟨nd, hnd, hkey2⟩
            have := hinv.tight nd hnd n (by rw [hkey2]; exact hr)
            have := hheadmin nd hnd
            omega
          · rcases hinv.cut n _ hr with hv2 | ⟨nd, hnd, m, hrm, hle⟩
            · exact absurd hv2 hv
            · have := hheadmin nd hnd
              omega
        · rw [← hkey]
          exact hw
      · have heqn : bfsAux g k goal (fuel + 1) (cur :: rest) v =
            bfsAux g k goal fuel
              (pushAll cur (successors g k cur.key) rest v).1
              (pushAll cur (successors g k cur.key) rest v).2 := by
          simp only [bfsAux]
          rw [if_neg hgoal]
        obtain ⟨ns, ks, heq, hks, hns, hmem, hndp⟩ :=
          pushAll_main cur (successors g k cur.key) rest v
        have hinv2 := inv_step hg hinv hgoal
        rw [heq] at hinv2
        have hlks : ks.length = ns.length := by rw [hks, List.length_map]
        have hvN : (v ++ ks).length ≤
            g.length * (g.headD []).length * (k.toNat + 1) :=
          nodup_keyOK_length (hndp hinv.nodup) hinv2.vok
        have hfuel2 : 1 + (rest ++ ns).length +
            (g.length * (g.headD []).length * (k.toNat + 1) -
              (v ++ ks).length) ≤ fuel := by
          rw [List.length_append] at hvN ⊢
          rw [List.length_append]
          simp only [List.length_cons] at hfuel
          omega
        obtain ⟨res, vf, heq2, hres⟩ := ih (rest ++ ns) (v ++ ks) hinv2 hfuel2
        refine ⟨res, vf, ?_, hres.1, hres.2.1, hres.2.2.1, hres.2.2.2.1,
          hres.2.2.2.2.1, ?_⟩
        · rw [heqn, heq]
          exact heq2
        · intro u hu
          exact hres.2.2.2.2.2 (List.mem_append.mpr (Or.inl hu))

/-- The initial queue and visitation set satisfy the invariant. -/
lemma inv_init {g : Grid} {k : Int} {S goal : Pos} (hg : gridWF g) (hk : 0 ≤ k)
    (hfs : findStart g = some S) :
    BfsInv g k S goal [startNode S] [(S.1, S.2, 0)] := by
  have hSok : keyOK g k ((S.1, S.2, 0) : Key) := by
    rcases findStart_spec hfs with ⟨c, hc, -, hx, hy⟩
    have := mem_cellAt hg hc
    rw [hx, hy] at this
    have hb := cellAt_bounds hg this
    exact ⟨hb, by simpa using hk⟩
  have hkey0 : (startNode S).key = (S.1, S.2, 0) := rfl
  refine ⟨?_, ?_, ?_, ?_, ?_, ?_, ?_, ?_, ?_, ?_, ?_⟩
  · intro nd hnd
    rcases List.mem_singleton.mp hnd with rfl
    exact ⟨[], rfl, rfl, rfl⟩
  · intro nd hnd n _
    rcases List.mem_singleton.mp hnd with rfl
    exact Nat.zero_le n
  · simp
  · intro hd hhd nd hnd
    rcases List.mem_singleton.mp hnd with rfl
    exact Nat.zero_le _
  · intro u hu
    rcases List.mem_singleton.mp hu with rfl
    exact Or.inl ⟨startNode S, List.mem_singleton.mpr rfl, rfl⟩
  · intro n κ hr
    exact Or.inr ⟨startNode S, List.mem_singleton.mpr rfl, n, hr, by simp [startNode]⟩
  · intro nd hnd
    rcases List.mem_singleton.mp hnd with rfl
    exact List.mem_singleton.mpr rfl
  · intro u hu _
    rcases List.mem_singleton.mp hu with rfl
    exact ⟨startNode S, List.mem_singleton.mpr rfl, rfl⟩
  · exact List.nodup_singleton _
  · intro u hu
    rcases List.mem_singleton.mp hu with rfl
    exact hSok
  · intro u hu
    rcases List.mem_singleton.mp hu with rfl
    exact ⟨0, rfl⟩

/-- Master characterization of solveMaze on well-formed grids with both
endpoints present and a non-negative budget. -/
lemma solve_main {g : Grid} {k : Int} (hg : gridWF g) (hk : 0 ≤ k) {S G : Pos}
    (hfs : findStart g = some S) (hfg : findGoal g = some G) :
    ∃ res vf, solveMazeFull g k = (res, vf) ∧
      bfsAux g k G (bfsFuel g k) [startNode S] [(S.1, S.2, 0)] =
        some (res, vf) ∧
      (res = none → ∀ n b, ¬ ReachN g k n (S.1, S.2, 0) (G.1, G.2, b)) ∧
      (∀ r, res = some r → GoodResult g k S G r) ∧
      vf.Nodup ∧ (∀ u ∈ vf, keyOK g k u) ∧
      (∀ u ∈ vf, ∃ n, ReachN g k n (S.1, S.2, 0) u) := by
  have hinv := @inv_init g k S G hg hk hfs
  have hfuel : 1 + ([startNode S] : List PathNode).length +
      (g.length * (g.headD []).length * (k.toNat + 1) -
        ([(S.1, S.2, 0)] : List Key).length) ≤ bfsFuel g k := by
    unfold bfsFuel
    simp only [List.length_singleton]
    omega
  obtain ⟨res, vf, heq, hnone, hsome, hnd, hok, hreach, -⟩ :=
    bfs_run hg (bfsFuel g k) [startNode S] [(S.1, S.2, 0)] hinv hfuel
  refine ⟨res, vf, ?_, heq, hnone, hsome, hnd, hok, hreach⟩
  unfold solveMazeFull
  rw [hfs, hfg]
  show (match bfsAux g k G (bfsFuel g k) [startNode S] [(S.1, S.2, 0)] with
    | some p => p
    | none => (none, ([] : List Key))) = (res, vf)
  rw [heq]

lemma two_mem_length_lt {α : Type} {l : List α} {a b : α} (ha : a ∈ l)
    (hb : b ∈ l) (hab : a ≠ b) : 1 < l.length := by
  cases l with
  | nil => simp at ha
  | cons x tl =>
    cases tl with
    | nil =>
      rw [List.mem_singleton] at ha hb
      exact absurd (ha.trans hb.symm) hab
    | cons y tl2 => simp

lemma walk_last {g : Grid} {k : Int} : ∀ {ps : List Pos} {s t : Key},
    walk g k s ps = some t → ps ≠ [] → ps.getLast? = some (t.1, t.2.1) := by
  intro ps
  induction ps with
  | nil => intro s t _ hne; exact absurd rfl hne
  | cons p ps ih =>
    intro s t hw _
    rw [walk_cons] at hw
    split at hw
    · rename_i u hu
      cases ps with
      | nil =>
        cases hw
        have hueq := List.find?_some hu
        simp only [Bool.and_eq_true, beq_iff_eq] at hueq
        rw [List.getLast?_singleton]
        rw [hueq.1, hueq.2]
      | cons p2 ps2 =>
        rw [List.getLast?_cons_cons]
        exact ih hw (by simp)
    · simp at hw

/-- C1: for every well-formed grid with exactly one start and one goal and
every budget K at least 0, if some action sequence (cardinal moves, breaking
moves, portal teleports) reaches the goal position within the break budget
then solveMaze returns a result whose step count is realized by such a
sequence and is minimal among all of them; if no such sequence exists,
solveMaze returns none (reachable = false). -/
theorem C1_solve_optimal {g : Grid} {k : Int} {S G : Pos} (hg : gridWF g)
    (hone : countType g CellType.start = 1) (hone2 : countType g CellType.goal = 1)
    (hk : 0 ≤ k) (hfs : findStart g = some S) (hfg : findGoal g = some G) :
    ((∃ n b, ReachN g k n (S.1, S.2, 0) (G.1, G.2, b)) →
      ∃ r, solveMaze g k = some r ∧
        (∃ b, ReachN g k r.steps (S.1, S.2, 0) (G.1, G.2, b)) ∧
        (∀ n b, ReachN g k n (S.1, S.2, 0) (G.1, G.2, b) → r.steps ≤ n)) ∧
    ((∀ n b, ¬ ReachN g k n (S.1, S.2, 0) (G.1, G.2, b)) →
      solveMaze g k = none) := by
  obtain ⟨res, vf, hfull, -, hnone, hsome, -⟩ := solve_main hg hk hfs hfg
  have hm : solveMaze g k = res := by unfold solveMaze; rw [hfull]
  constructor
  · rintro ⟨n, b, hr⟩
    cases hres : res with
    | none => exact absurd hr (hnone hres n b)
    | some r =>
      obtain ⟨h1, h2, -⟩ := hsome r hres
      exact ⟨r, by rw [hm, hres], h1, h2⟩
  · intro hnr
    cases hres : res with
    | none => rw [hm, hres]
    | some r =>
      obtain ⟨⟨b, h1⟩, -, -⟩ := hsome r hres
      exact absurd h1 (hnr _ b)

theorem C1_solve_optimal_witness :
    gridWF cg1 ∧ countType cg1 CellType.start = 1 ∧
    countType cg1 CellType.goal = 1 ∧ (0 : Int) ≤ 0 ∧
    findStart cg1 = some (0, 0) ∧ findGoal cg1 = some (2, 0) ∧
    (((∃ n b, ReachN cg1 0 n (0, 0, 0) (2, 0, b)) →
      ∃ r, solveMaze cg1 0 = some r ∧
        (∃ b, ReachN cg1 0 r.steps (0, 0, 0) (2, 0, b)) ∧
        (∀ n b, ReachN cg1 0 n (0, 0, 0) (2, 0, b) → r.steps ≤ n)) ∧
    ((∀ n b, ¬ ReachN cg1 0 n (0, 0, 0) (2, 0, b)) →
      solveMaze cg1 0 = none)) :=
  ⟨gridWFb_sound (by decide), by decide, by decide, by decide, by decide,
    by decide,
    @C1_solve_optimal cg1 0 (0, 0) (2, 0) (gridWFb_sound (by decide))
      (by decide) (by decide) (by decide) (by decide) (by decide)⟩

/-- C3: with the grid fixed, enlarging the break budget never loses
reachability and never increases the minimal action count. -/
theorem C3_budget_monotone {g : Grid} {k kp : Int} {S G : Pos} (hg : gridWF g)
    (hk : 0 ≤ k) (hkk : k ≤ kp) (hfs : findStart g = some S)
    (hfg : findGoal g = some G) :
    ∀ r, solveMaze g k = some r →
      ∃ rp, solveMaze g kp = some rp ∧ rp.steps ≤ r.steps := by
  intro r hr
  obtain ⟨res, vf, hfull, -, hnone, hsome, -⟩ := solve_main hg hk hfs hfg
  have hm : res = some r := by
    rw [show res = solveMaze g k by unfold solveMaze; rw [hfull], hr]
  obtain ⟨⟨b, h1⟩, -, -⟩ := hsome r hm
  have h1p : ReachN g kp r.steps (S.1, S.2, 0) (G.1, G.2, b) := reachN_mono hkk h1
  obtain ⟨res2, vf2, hfull2, -, hnone2, hsome2, -⟩ :=
    solve_main hg (le_trans hk hkk) hfs hfg
  have hm2 : solveMaze g kp = res2 := by unfold solveMaze; rw [hfull2]
  cases hres2 : res2 with
  | none => exact absurd h1p (hnone2 hres2 r.steps b)
  | some rp =>
    obtain ⟨-, hmin, -⟩ := hsome2 rp hres2
    exact ⟨rp, by rw [hm2, hres2], hmin r.steps b h1p⟩

theorem C3_budget_monotone_witness :
    gridWF cg1 ∧ (0 : Int) ≤ 0 ∧ (0 : Int) ≤ 1 ∧
    findStart cg1 = some (0, 0) ∧ findGoal cg1 = some (2, 0) ∧
    (∀ r, solveMaze cg1 0 = some r →
      ∃ rp, solveMaze cg1 1 = some rp ∧ rp.steps ≤ r.steps) :=
  ⟨gridWFb_sound (by decide), by decide, by decide, by decide, by decide,
    @C3_budget_monotone cg1 0 1 (0, 0) (2, 0) (gridWFb_sound (by decide))
      (by decide) (by decide) (by decide) (by decide)⟩

/-- C4: on a well-formed grid, from any in-bounds state within budget the
solver transition relation is exactly the specified one: teleports to every
other same-colored portal cell at unchanged break count, and cardinal moves
to in-bounds neighbors, break-free onto non-walls and break-consuming onto
walls only when the incremented count stays within budget; nothing else. -/
theorem C4_successor_relation {g : Grid} {k : Int} {s t : Key} (hg : gridWF g)
    (hcell : ∃ c, cellAt g s.1 s.2.1 = some c) (hb : (s.2.2 : Int) ≤ k) :
    t ∈ successors g k s ↔ SpecSucc g k s t := by
  rw [mem_successors]
  unfold SpecSucc
  constructor
  · rintro (h | h)
    · left
      rcases mem_teleSuccs.mp h with ⟨c, hc, htyp, col, hcol, hlen, d, hd, hne, ht⟩
      rcases mem_findPortals.mp hd with ⟨c2, hc2, ht2, hcol2, hx2, hy2⟩
      refine ⟨c, hc, htyp, col, hcol, c2, hc2, ht2, hcol2, ?_, ?_⟩
      · rw [hx2, hy2]; exact hne
      · rw [hx2, hy2]; exact ht
    · right
      rcases mem_moveSuccs.mp h with ⟨d, hd, hbounds, nb, hnb, hk2, ht⟩
      refine ⟨d, hd, hbounds, nb, hnb, ?_⟩
      by_cases hwall : nb.type = CellType.wall
      · right
        rw [if_pos hwall] at hk2 ht
        exact ⟨hwall, by exact_mod_cast hk2, ht⟩
      · left
        rw [if_neg hwall] at ht
        exact ⟨hwall, ht⟩
  · rintro (⟨c, hc, htyp, col, hcol, c2, hc2, ht2, hcol2, hne, ht⟩ | h)
    · left
      have hd2 : ((c2.x, c2.y) : Pos) ∈ findPortals g col :=
        mem_findPortals.mpr ⟨c2, hc2, ht2, hcol2, rfl, rfl⟩
      have hdself : ((s.1, s.2.1) : Pos) ∈ findPortals g col := by
        have hcm := cellAt_mem hc
        have hco := cellAt_coords hg hc
        refine mem_findPortals.mpr ⟨c, hcm, htyp, hcol, hco.1, hco.2⟩
      have hlen : 1 < (findPortals g col).length := by
        refine two_mem_length_lt hd2 hdself ?_
        intro hcontra
        apply hne
        rw [Prod.mk.injEq] at hcontra
        exact ⟨hcontra.1, hcontra.2⟩
      exact mem_teleSuccs.mpr ⟨c, hc, htyp, col, hcol, hlen, (c2.x, c2.y), hd2,
        hne, ht⟩
    · right
      rcases h with ⟨d, hd, hbounds, nb, hnb, hcase⟩
      rcases hcase with ⟨hwall, ht⟩ | ⟨hwall, hk2, ht⟩
      · exact mem_moveSuccs.mpr ⟨d, hd, hbounds, nb, hnb,
          by rw [if_neg hwall]; exact hb, by rw [if_neg hwall]; exact ht⟩
      · exact mem_moveSuccs.mpr ⟨d, hd, hbounds, nb, hnb,
          by rw [if_pos hwall]; exact_mod_cast hk2,
          by rw [if_pos hwall]; exact ht⟩

theorem C4_successor_relation_witness :
    gridWF cgPortal ∧ (∃ c, cellAt cgPortal 1 0 = some c) ∧ ((0 : Nat) : Int) ≤ 1 ∧
    (((1, 1, 0) : Key) ∈ successors cgPortal 1 (1, 0, 0) ↔
      SpecSucc cgPortal 1 (1, 0, 0) (1, 1, 0)) :=
  ⟨gridWFb_sound (by decide), ⟨_, rfl⟩, by decide,
    @C4_successor_relation cgPortal 1 (1, 0, 0) (1, 1, 0)
      (gridWFb_sound (by decide)) ⟨_, rfl⟩ (by decide)⟩

/-- C5: the search terminates within its fuel (the loop result is produced,
never the fuel-exhaustion marker), the visitation set never holds duplicates
(each augmented state is enqueued at most once), and the number of enqueued
states is bounded by rows * cols * (budget + 1). -/
theorem C5_search_bounded_terminates {g : Grid} {k : Int} {S G : Pos}
    (hg : gridWF g) (hk : 0 ≤ k) (hfs : findStart g = some S)
    (hfg : findGoal g = some G) :
    ∃ res vf,
      bfsAux g k G (bfsFuel g k) [startNode S] [(S.1, S.2, 0)] = some (res, vf) ∧
      solveMazeFull g k = (res, vf) ∧ vf.Nodup ∧
      vf.length ≤ g.length * (g.headD []).length * (k.toNat + 1) := by
  obtain ⟨res, vf, hfull, haux, -, -, hnd, hok, -⟩ := solve_main hg hk hfs hfg
  exact ⟨res, vf, haux, hfull, hnd, nodup_keyOK_length hnd hok⟩

theorem C5_search_bounded_terminates_witness :
    gridWF cg1 ∧ (0 : Int) ≤ 0 ∧ findStart cg1 = some (0, 0) ∧
    findGoal cg1 = some (2, 0) ∧
    (∃ res vf,
      bfsAux cg1 0 (2, 0) (bfsFuel cg1 0) [startNode (0, 0)] [(0, 0, 0)] =
        some (res, vf) ∧
      solveMazeFull cg1 0 = (res, vf) ∧ vf.Nodup ∧
      vf.length ≤ cg1.length * (cg1.headD []).length * ((0 : Int).toNat + 1)) :=
  ⟨gridWFb_sound (by decide), by decide, by decide, by decide,
    @C5_search_bounded_terminates cg1 0 (0, 0) (2, 0)
      (gridWFb_sound (by decide)) (by decide) (by decide) (by decide)⟩

/-- C6 (amended): when the start or the goal is missing, solveMaze returns
none immediately - the visitation set stays empty, so nothing was enqueued or
dequeued.  Contrary to the claim, this contract-violation null is NOT
distinguishable from an ordinary unreachable-goal null: both calls return the
bare none (see the counterexample). -/
theorem C6_missing_endpoint_silent_null {g : Grid} {k : Int}
    (h : findStart g = none ∨ findGoal g = none) :
    solveMazeFull g k = (none, []) := by
  unfold solveMazeFull
  rcases h with h | h
  · rw [h]
  · cases hfs : findStart g with
    | none => rfl
    | some s => rw [h]

theorem C6_missing_endpoint_silent_null_witness :
    (findStart cgNoEnd = none ∨ findGoal cgNoEnd = none) ∧
    solveMazeFull cgNoEnd 0 = (none, []) :=
  ⟨Or.inl (by decide), C6_missing_endpoint_silent_null (Or.inl (by decide))⟩

/-- C6 counterexample: a grid with no endpoints at all and a well-formed grid
whose goal is merely unreachable produce the exact same observable result
(none), so the contract-violation case is not made distinguishable from the
unreachable-goal search outcome. -/
theorem C6_counterexample :
    findStart cgNoEnd = none ∧ findGoal cgNoEnd = none ∧
    findStart cgWall = some (0, 0) ∧ findGoal cgWall = some (2, 0) ∧
    solveMaze cgNoEnd 0 = none ∧ solveMaze cgWall 0 = none ∧
    solveMaze cgNoEnd 0 = solveMaze cgWall 0 := by
  refine ⟨by decide, by decide, by decide, by decide, by decide, by decide, ?_⟩
  decide

/-- C8: break counts never decrease along a transition (each action keeps the
count or raises it by one, the raise only within budget), and every state the
solver ever enqueues (that is, every member of the final visitation set)
carries a break count between 0 and the budget. -/
theorem C8_breaks_within_budget {g : Grid} {k : Int} {S G : Pos}
    (hg : gridWF g) (hk : 0 ≤ k) (hfs : findStart g = some S)
    (hfg : findGoal g = some G) :
    (∀ s t : Key, t ∈ successors g k s →
      t.2.2 = s.2.2 ∨ (t.2.2 = s.2.2 + 1 ∧ (t.2.2 : Int) ≤ k)) ∧
    (∀ u ∈ (solveMazeFull g k).2, 0 ≤ (u.2.2 : Int) ∧ (u.2.2 : Int) ≤ k) := by
  obtain ⟨res, vf, hfull, -, -, -, -, -, hreach⟩ := solve_main hg hk hfs hfg
  refine ⟨fun s t ht => successors_breaks ht, ?_⟩
  intro u hu
  rw [hfull] at hu
  rcases hreach u hu with ⟨n, hr⟩
  exact ⟨by positivity, reachN_b_le (by simpa using hk) hr⟩

theorem C8_breaks_within_budget_witness :
    gridWF cg1 ∧ (0 : Int) ≤ 0 ∧ findStart cg1 = some (0, 0) ∧
    findGoal cg1 = some (2, 0) ∧
    ((∀ s t : Key, t ∈ successors cg1 0 s →
      t.2.2 = s.2.2 ∨ (t.2.2 = s.2.2 + 1 ∧ (t.2.2 : Int) ≤ 0)) ∧
    (∀ u ∈ (solveMazeFull cg1 0).2, 0 ≤ (u.2.2 : Int) ∧ (u.2.2 : Int) ≤ 0)) :=
  ⟨gridWFb_sound (by decide), by decide, by decide, by decide,
    @C8_breaks_within_budget cg1 0 (0, 0) (2, 0) (gridWFb_sound (by decide))
      (by decide) (by decide) (by decide)⟩

/-- C9: solveMaze is deterministic - two calls on an identical grid and an
identical budget return equal results (same reachability flag and same
minimal step count); the embedding is a pure function of (grid, budget). -/
theorem C9_solve_deterministic (g : Grid) (k : Int) (r1 r2 : Option SolveResult)
    (h1 : solveMaze g k = r1) (h2 : solveMaze g k = r2) : r1 = r2 := by
  rw [← h1, ← h2]

theorem C9_solve_deterministic_witness :
    solveMaze cg1 0 = some ⟨2, [(0, 0), (1, 0), (2, 0)]⟩ ∧
    (some (⟨2, [(0, 0), (1, 0), (2, 0)]⟩ : SolveResult) =
      some ⟨2, [(0, 0), (1, 0), (2, 0)]⟩) :=
  ⟨by decide, C9_solve_deterministic cg1 0 _ _ (by decide) (by decide)⟩

/-- C10: whenever solveMaze returns a result, the returned path is a valid
witness: it has steps + 1 positions, starts at the start cell, ends at the
goal position, every consecutive pair is one legal action (checked by walk
over the solver transition relation), and its number of wall entries equals
the final break count, which is at most the budget. -/
theorem C10_returned_path_valid {g : Grid} {k : Int} {S G : Pos}
    (hg : gridWF g) (hk : 0 ≤ k) (hfs : findStart g = some S)
    (hfg : findGoal g = some G) :
    ∀ r, solveMaze g k = some r →
      ∃ ps b, r.path = S :: ps ∧ r.path.length = r.steps + 1 ∧
        walk g k (S.1, S.2, 0) ps = some (G.1, G.2, b) ∧
        (ps ≠ [] → ps.getLast? = some (G.1, G.2)) ∧
        (ps = [] → S = (G.1, G.2)) ∧
        ps.countP (fun p => typeAt g p.1 p.2 == some CellType.wall) = b ∧
        (b : Int) ≤ k := by
  intro r hr
  obtain ⟨res, vf, hfull, -, -, hsome, -⟩ := solve_main hg hk hfs hfg
  have hm : res = some r := by
    rw [show res = solveMaze g k by unfold solveMaze; rw [hfull], hr]
  obtain ⟨-, -, ps, b, hpath, hlen, hwalk⟩ := hsome r hm
  refine ⟨ps, b, hpath, ?_, hwalk, ?_, ?_, ?_, ?_⟩
  · rw [hpath]; simp [hlen]
  · intro hne
    exact walk_last hwalk hne
  · intro hnil
    subst hnil
    have h0 : (some ((S.1, S.2, 0) : Key)) = some ((G.1, G.2, b) : Key) := hwalk
    have h1 := Option.some.inj h0
    have e1 : S.1 = G.1 := congrArg (fun t : Key => t.1) h1
    have e2 : S.2 = G.2 := congrArg (fun t : Key => t.2.1) h1
    exact Prod.ext e1 e2
  · have := walk_breaks hg hwalk
    simpa using this.symm
  · have hreach := walk_reachN hwalk
    exact reachN_b_le (by simpa using hk) hreach

theorem C10_returned_path_valid_witness :
    gridWF cg1 ∧ (0 : Int) ≤ 0 ∧ findStart cg1 = some (0, 0) ∧
    findGoal cg1 = some (2, 0) ∧
    (∀ r, solveMaze cg1 0 = some r →
      ∃ ps b, r.path = (0, 0) :: ps ∧ r.path.length = r.steps + 1 ∧
        walk cg1 0 (0, 0, 0) ps = some (2, 0, b) ∧
        (ps ≠ [] → ps.getLast? = some (2, 0)) ∧
        (ps = [] → ((0, 0) : Pos) = (2, 0)) ∧
        ps.countP (fun p => typeAt cg1 p.1 p.2 == some CellType.wall) = b ∧
        (b : Int) ≤ 0) :=
  ⟨gridWFb_sound (by decide), by decide, by decide, by decide,
    @C10_returned_path_valid cg1 0 (0, 0) (2, 0) (gridWFb_sound (by decide))
      (by decide) (by decide) (by decide)⟩

end PortalMaze

namespace PortalMaze

/-! ## Cell-patching lemmas for the generator stages -/

lemma cellAt_mapCells (f : Cell → Cell) (g : Grid) (a b : Int) :
    cellAt (g.map (fun row => row.map f)) a b = (cellAt g a b).map f := by
  unfold cellAt
  by_cases hab : 0 ≤ a ∧ 0 ≤ b
  · rw [if_pos hab, if_pos hab, List.get?_map]
    cases hrow : g.get? b.toNat with
    | none => rfl
    | some row => simp [List.get?_map]
  · rw [if_neg hab, if_neg hab]; rfl

lemma rowsOf_mapCells (f : Cell → Cell) (g : Grid) :
    rowsOf (g.map (fun row => row.map f)) = rowsOf g := by
  unfold rowsOf; rw [List.length_map]

lemma colsOf_mapCells (f : Cell → Cell) (g : Grid) :
    colsOf (g.map (fun row => row.map f)) = colsOf g := by
  unfold colsOf
  cases g with
  | nil => rfl
  | cons r rs => simp

lemma length_mapCells (f : Cell → Cell) (g : Grid) :
    (g.map (fun row => row.map f)).length = g.length := List.length_map g _

lemma gridWF_mapCells {f : Cell → Cell} (hf : ∀ c, (f c).x = c.x ∧ (f c).y = c.y)
    {g : Grid} (hg : gridWF g) : gridWF (g.map (fun row => row.map f)) := by
  constructor
  · intro row hrow
    rcases List.mem_map.mp hrow with ⟨r0, hr0, rfl⟩
    rw [List.length_map]
    have := hg.1 r0 hr0
    rw [this]
    cases g with
    | nil => simp at hr0
    | cons a rs => simp
  · intro yi xi row c hrow hc
    rw [List.get?_map] at hrow
    cases hg0 : g.get? yi with
    | none => rw [hg0] at hrow; simp at hrow
    | some r0 =>
      rw [hg0] at hrow
      cases hrow
      rw [List.get?_map] at hc
      cases hc0 : r0.get? xi with
      | none => rw [hc0] at hc; simp at hc
      | some c0 =>
        rw [hc0] at hc
        cases hc
        have := hg.2 yi xi r0 c0 hg0 hc0
        rw [(hf c0).1, (hf c0).2]
        exact this

lemma setType_eq_mapCells (g : Grid) (x y : Int) (t : CellType) :
    setType g x y t = g.map (fun row => row.map (fun c =>
      if c.x = x ∧ c.y = y then { c with type := t } else c)) := rfl

lemma setPortal_eq_mapCells (g : Grid) (x y : Int) (col : PortalColor) :
    setPortal g x y col = g.map (fun row => row.map (fun c =>
      if c.x = x ∧ c.y = y then
        { c with type := CellType.portal, portalColor := some col }
      else c)) := rfl

lemma gridWF_setType {g : Grid} (hg : gridWF g) (x y : Int) (t : CellType) :
    gridWF (setType g x y t) := by
  rw [setType_eq_mapCells]
  refine gridWF_mapCells (fun c => ?_) hg
  split <;> exact ⟨rfl, rfl⟩

lemma gridWF_setPortal {g : Grid} (hg : gridWF g) (x y : Int) (col : PortalColor) :
    gridWF (setPortal g x y col) := by
  rw [setPortal_eq_mapCells]
  refine gridWF_mapCells (fun c => ?_) hg
  split <;> exact ⟨rfl, rfl⟩

lemma rowsOf_setType (g : Grid) (x y : Int) (t : CellType) :
    rowsOf (setType g x y t) = rowsOf g := rowsOf_mapCells _ g

lemma colsOf_setType (g : Grid) (x y : Int) (t : CellType) :
    colsOf (setType g x y t) = colsOf g := colsOf_mapCells _ g

lemma rowsOf_setPortal (g : Grid) (x y : Int) (col : PortalColor) :
    rowsOf (setPortal g x y col) = rowsOf g := rowsOf_mapCells _ g

lemma colsOf_setPortal (g : Grid) (x y : Int) (col : PortalColor) :
    colsOf (setPortal g x y col) = colsOf g := colsOf_mapCells _ g

lemma typeAt_setType_self {g : Grid} (hg : gridWF g) {x y : Int} {c : Cell}
    (hc : cellAt g x y = some c) (t : CellType) :
    typeAt (setType g x y t) x y = some t := by
  have hco := cellAt_coords hg hc
  unfold typeAt
  rw [setType_eq_mapCells, cellAt_mapCells, hc]
  simp only [Option.map_some']
  rw [if_pos ⟨hco.1, hco.2⟩]

lemma typeAt_setType_ne {g : Grid} (hg : gridWF g) {x y a b : Int}
    (hne : ¬(a = x ∧ b = y)) (t : CellType) :
    typeAt (setType g x y t) a b = typeAt g a b := by
  unfold typeAt
  rw [setType_eq_mapCells, cellAt_mapCells]
  cases hc : cellAt g a b with
  | none => rfl
  | some c =>
    have hco := cellAt_coords hg hc
    simp only [Option.map_some']
    rw [if_neg (by rw [hco.1, hco.2]; exact hne)]

lemma typeAt_setPortal_self {g : Grid} (hg : gridWF g) {x y : Int} {c : Cell}
    (hc : cellAt g x y = some c) (col : PortalColor) :
    typeAt (setPortal g x y col) x y = some CellType.portal := by
  have hco := cellAt_coords hg hc
  unfold typeAt
  rw [setPortal_eq_mapCells, cellAt_mapCells, hc]
  simp only [Option.map_some']
  rw [if_pos ⟨hco.1, hco.2⟩]

lemma typeAt_setPortal_ne {g : Grid} (hg : gridWF g) {x y a b : Int}
    (hne : ¬(a = x ∧ b = y)) (col : PortalColor) :
    typeAt (setPortal g x y col) a b = typeAt g a b := by
  unfold typeAt
  rw [setPortal_eq_mapCells, cellAt_mapCells]
  cases hc : cellAt g a b with
  | none => rfl
  | some c =>
    have hco := cellAt_coords hg hc
    simp only [Option.map_some']
    rw [if_neg (by rw [hco.1, hco.2]; exact hne)]

/-- Pointwise effect of one setType: unchanged elsewhere, the target type at
the written cell. -/
lemma typeAt_setType_cases {g : Grid} (hg : gridWF g) (x y a b : Int)
    (t : CellType) :
    typeAt (setType g x y t) a b = typeAt g a b ∨
      ((a = x ∧ b = y) ∧ (typeAt g a b).isSome ∧
        typeAt (setType g x y t) a b = some t) := by
  by_cases hab : a = x ∧ b = y
  · obtain ⟨rfl, rfl⟩ := hab
    cases hc : cellAt g a b with
    | none =>
      left
      unfold typeAt
      rw [setType_eq_mapCells, cellAt_mapCells, hc]
      rfl
    | some c =>
      right
      exact ⟨⟨rfl, rfl⟩, by unfold typeAt; rw [hc]; rfl,
        typeAt_setType_self hg hc t⟩
  · exact Or.inl (typeAt_setType_ne hg hab t)

lemma typeAt_setPortal_cases {g : Grid} (hg : gridWF g) (x y a b : Int)
    (col : PortalColor) :
    typeAt (setPortal g x y col) a b = typeAt g a b ∨
      ((a = x ∧ b = y) ∧ (typeAt g a b).isSome ∧
        typeAt (setPortal g x y col) a b = some CellType.portal) := by
  by_cases hab : a = x ∧ b = y
  · obtain ⟨rfl, rfl⟩ := hab
    cases hc : cellAt g a b with
    | none =>
      left
      unfold typeAt
      rw [setPortal_eq_mapCells, cellAt_mapCells, hc]
      rfl
    | some c =>
      right
      exact ⟨⟨rfl, rfl⟩, by unfold typeAt; rw [hc]; rfl,
        typeAt_setPortal_self hg hc col⟩
  · exact Or.inl (typeAt_setPortal_ne hg hab col)

end PortalMaze

namespace PortalMaze

/-! ## Stage frame lemmas -/

lemma setType2_empty_cases {g : Grid} (hg : gridWF g) (u v w z a b : Int) :
    typeAt (setType (setType g u v CellType.empty) w z CellType.empty) a b =
      typeAt g a b ∨
    typeAt (setType (setType g u v CellType.empty) w z CellType.empty) a b =
      some CellType.empty := by
  have h1 := typeAt_setType_cases hg u v a b CellType.empty
  have h2 := typeAt_setType_cases (gridWF_setType hg u v CellType.empty) w z a b
    CellType.empty
  rcases h2 with h2 | ⟨-, -, h2⟩
  · rcases h1 with h1 | ⟨-, -, h1⟩
    · exact Or.inl (h2.trans h1)
    · exact Or.inr (h2.trans h1)
  · exact Or.inr h2

lemma carveAux (pick : Nat → Nat) :
    ∀ (fuel t : Nat) (st vis : List Pos) (g : Grid), gridWF g →
      gridWF (carveLoop pick fuel t st vis g) ∧
      rowsOf (carveLoop pick fuel t st vis g) = rowsOf g ∧
      colsOf (carveLoop pick fuel t st vis g) = colsOf g ∧
      ∀ a b : Int, typeAt (carveLoop pick fuel t st vis g) a b = typeAt g a b ∨
        typeAt (carveLoop pick fuel t st vis g) a b = some CellType.empty := by
  intro fuel
  induction fuel with
  | zero =>
    intro t st vis g hg
    exact ⟨hg, rfl, rfl, fun a b => Or.inl rfl⟩
  | succ fuel ih =>
    intro t st vis g hg
    cases st with
    | nil => exact ⟨hg, rfl, rfl, fun a b => Or.inl rfl⟩
    | cons hd rest =>
      obtain ⟨x, y⟩ := hd
      show _ ∧ _ ∧ _ ∧ _
      rw [carveLoop]
      by_cases hlen : (carveNeighbors vis x y).length = 0
      · rw [if_pos hlen]
        exact ih t rest vis g hg
      · rw [if_neg hlen]
        set c := (carveNeighbors vis x y).getD (pick t % (carveNeighbors vis x y).length)
          (0, 0, 0, 0) with hc
        set g2 := setType (setType g (x + c.2.2.1) (y + c.2.2.2) CellType.empty)
          c.1 c.2.1 CellType.empty with hg2
        have hwf2 : gridWF g2 :=
          gridWF_setType (gridWF_setType hg _ _ _) _ _ _
        obtain ⟨hwf3, hrows, hcols, hpt⟩ := ih (t + 1)
          ((c.1, c.2.1) :: (x, y) :: rest) ((c.1, c.2.1) :: vis) g2 hwf2
        refine ⟨hwf3, ?_, ?_, ?_⟩
        · rw [hrows, hg2, rowsOf_setType, rowsOf_setType]
        · rw [hcols, hg2, colsOf_setType, colsOf_setType]
        · intro a b
          rcases hpt a b with h1 | h1
          · rw [h1]
            exact setType2_empty_cases hg _ _ _ _ a b
          · exact Or.inr h1

lemma carve_preserves_empty {pick : Nat → Nat} {fuel t : Nat} {st vis : List Pos}
    {g : Grid} (hg : gridWF g) {a b : Int}
    (h : typeAt g a b = some CellType.empty) :
    typeAt (carveLoop pick fuel t st vis g) a b = some CellType.empty := by
  rcases (carveAux pick fuel t st vis g hg).2.2.2 a b with h1 | h1
  · rw [h1, h]
  · exact h1

lemma punchStep_cases {g : Grid} (hg : gridWF g) (o : GenOracle) (p : Pos)
    (a b : Int) :
    gridWF (if typeAt g p.1 p.2 = some CellType.wall ∧ o.holeFlip p.1 p.2 = true
        then setType g p.1 p.2 CellType.empty else g) ∧
    rowsOf (if typeAt g p.1 p.2 = some CellType.wall ∧ o.holeFlip p.1 p.2 = true
        then setType g p.1 p.2 CellType.empty else g) = rowsOf g ∧
    colsOf (if typeAt g p.1 p.2 = some CellType.wall ∧ o.holeFlip p.1 p.2 = true
        then setType g p.1 p.2 CellType.empty else g) = colsOf g ∧
    (typeAt (if typeAt g p.1 p.2 = some CellType.wall ∧ o.holeFlip p.1 p.2 = true
        then setType g p.1 p.2 CellType.empty else g) a b = typeAt g a b ∨
      (typeAt g a b = some CellType.wall ∧
        typeAt (if typeAt g p.1 p.2 = some CellType.wall ∧
            o.holeFlip p.1 p.2 = true
          then setType g p.1 p.2 CellType.empty else g) a b =
          some CellType.empty)) := by
  split
  · rename_i hcond
    refine ⟨gridWF_setType hg _ _ _, rowsOf_setType _ _ _ _,
      colsOf_setType _ _ _ _, ?_⟩
    rcases typeAt_setType_cases hg p.1 p.2 a b CellType.empty with h1 | ⟨hab, -, h1⟩
    · exact Or.inl h1
    · right
      refine ⟨?_, h1⟩
      rw [hab.1, hab.2]
      exact hcond.1
  · exact ⟨hg, rfl, rfl, Or.inl rfl⟩

lemma punchFoldAux (o : GenOracle) :
    ∀ (l : List Pos) (g : Grid), gridWF g →
      gridWF (l.foldl (fun acc p =>
        if typeAt acc p.1 p.2 = some CellType.wall ∧ o.holeFlip p.1 p.2 = true
        then setType acc p.1 p.2 CellType.empty else acc) g) ∧
      rowsOf (l.foldl (fun acc p =>
        if typeAt acc p.1 p.2 = some CellType.wall ∧ o.holeFlip p.1 p.2 = true
        then setType acc p.1 p.2 CellType.empty else acc) g) = rowsOf g ∧
      colsOf (l.foldl (fun acc p =>
        if typeAt acc p.1 p.2 = some CellType.wall ∧ o.holeFlip p.1 p.2 = true
        then setType acc p.1 p.2 CellType.empty else acc) g) = colsOf g ∧
      ∀ a b : Int, typeAt (l.foldl (fun acc p =>
        if typeAt acc p.1 p.2 = some CellType.wall ∧ o.holeFlip p.1 p.2 = true
        then setType acc p.1 p.2 CellType.empty else acc) g) a b = typeAt g a b ∨
        (typeAt g a b = some CellType.wall ∧
          typeAt (l.foldl (fun acc p =>
            if typeAt acc p.1 p.2 = some CellType.wall ∧
                o.holeFlip p.1 p.2 = true
            then setType acc p.1 p.2 CellType.empty else acc) g) a b =
            some CellType.empty) := by
  intro l
  induction l with
  | nil => intro g hg; exact ⟨hg, rfl, rfl, fun a b => Or.inl rfl⟩
  | cons p l ih =>
    intro g hg
    rw [List.foldl_cons]
    set g1 := if typeAt g p.1 p.2 = some CellType.wall ∧ o.holeFlip p.1 p.2 = true
      then setType g p.1 p.2 CellType.empty else g with hg1
    have hstep := fun a b => punchStep_cases hg o p a b
    have hwf1 : gridWF g1 := (hstep 0 0).1
    obtain ⟨hwf2, hrows, hcols, hpt⟩ := ih g1 hwf1
    refine ⟨hwf2, by rw [hrows]; exact (hstep 0 0).2.1,
      by rw [hcols]; exact (hstep 0 0).2.2.1, ?_⟩
    intro a b
    rcases hpt a b with h1 | ⟨hw, h1⟩
    · rcases (hstep a b).2.2.2 with h2 | ⟨hw2, h2⟩
      · exact Or.inl (h1.trans h2)
      · exact Or.inr ⟨hw2, h1.trans h2⟩
    · rcases (hstep a b).2.2.2 with h2 | ⟨hw2, h2⟩
      · rw [h2] at hw
        exact Or.inr ⟨hw, h1⟩
      · exact Or.inr ⟨hw2, h1⟩

lemma punchHoles_frame (o : GenOracle) {g : Grid} (hg : gridWF g) :
    gridWF (punchHoles o g) ∧
    rowsOf (punchHoles o g) = rowsOf g ∧ colsOf (punchHoles o g) = colsOf g ∧
    ∀ a b : Int, typeAt (punchHoles o g) a b = typeAt g a b ∨
      (typeAt g a b = some CellType.wall ∧
        typeAt (punchHoles o g) a b = some CellType.empty) :=
  punchFoldAux o interiorCoords g hg

lemma getD_mem_pos {l : List Pos} {i : Nat} (h : i < l.length) (d : Pos) :
    l.getD i d ∈ l := by
  rw [List.getD_eq_getElem?_getD]
  rw [List.getElem?_eq_getElem h]
  exact List.getElem_mem _

lemma emptiesOf_mem {g : Grid} (hg : gridWF g) {p : Pos}
    (h : p ∈ emptiesOf g) : typeAt g p.1 p.2 = some CellType.empty := by
  unfold emptiesOf at h
  rcases List.mem_filterMap.mp h with ⟨c, hc, hf⟩
  split at hf
  · rename_i ht
    cases hf
    have h2 := mem_cellAt hg hc
    unfold typeAt
    rw [h2, Option.map_some', ht]
  · simp at hf

lemma placePortals_frame (o : GenOracle) {g : Grid} (hg : gridWF g) :
    gridWF (placePortals o g) ∧
    rowsOf (placePortals o g) = rowsOf g ∧
    colsOf (placePortals o g) = colsOf g ∧
    ∀ a b : Int, typeAt (placePortals o g) a b = typeAt g a b ∨
      (typeAt g a b = some CellType.empty ∧
        typeAt (placePortals o g) a b = some CellType.portal) := by
  unfold placePortals
  by_cases hlen : 2 ≤ (emptiesOf g).length
  · rw [if_pos hlen]
    set e := emptiesOf g with he
    set i := o.portalPick1 % e.length with hi
    set j0 := o.portalPick2 % (e.length - 1) with hj0
    set j := if i ≤ j0 then j0 + 1 else j0 with hj
    have hilt : i < e.length := Nat.mod_lt _ (by omega)
    have hj0lt : j0 < e.length - 1 := Nat.mod_lt _ (by omega)
    have hjlt : j < e.length := by
      rw [hj]; split <;> omega
    set p1 := e.getD i (0, 0) with hp1
    set p2 := e.getD j (0, 0) with hp2
    have hp1m : p1 ∈ e := getD_mem_pos hilt _
    have hp2m : p2 ∈ e := getD_mem_pos hjlt _
    have hp1e : typeAt g p1.1 p1.2 = some CellType.empty := emptiesOf_mem hg hp1m
    have hp2e : typeAt g p2.1 p2.2 = some CellType.empty := emptiesOf_mem hg hp2m
    have hwf1 : gridWF (setPortal g p1.1 p1.2 PortalColor.blue) :=
      gridWF_setPortal hg _ _ _
    refine ⟨gridWF_setPortal hwf1 _ _ _, ?_, ?_, ?_⟩
    · rw [rowsOf_setPortal, rowsOf_setPortal]
    · rw [colsOf_setPortal, colsOf_setPortal]
    · intro a b
      rcases typeAt_setPortal_cases hwf1 p2.1 p2.2 a b PortalColor.blue with
        h2 | ⟨hab2, -, h2⟩
      · rcases typeAt_setPortal_cases hg p1.1 p1.2 a b PortalColor.blue with
          h1 | ⟨hab1, -, h1⟩
        · exact Or.inl (h2.trans h1)
        · right
          refine ⟨?_, h2.trans h1⟩
          rw [hab1.1, hab1.2]
          exact hp1e
      · right
        refine ⟨?_, h2⟩
        rw [hab2.1, hab2.2]
        exact hp2e
  · rw [if_neg hlen]
    exact ⟨hg, rfl, rfl, fun a b => Or.inl rfl⟩

end PortalMaze

namespace PortalMaze

/-! ## Generated-grid stage facts -/

lemma initGrid_WF : gridWF initGrid := gridWFb_sound (by decide)

lemma initGrid_all_wall : ∀ c ∈ cellsOf initGrid, c.type = CellType.wall := by
  decide

lemma rowsOf_initGrid : rowsOf initGrid = 10 := by decide

lemma colsOf_initGrid : colsOf initGrid = 10 := by decide

lemma typeAt_mem {g : Grid} {a b : Int} {tt : CellType}
    (h : typeAt g a b = some tt) : ∃ c ∈ cellsOf g, c.type = tt := by
  unfold typeAt at h
  cases hc : cellAt g a b with
  | none => rw [hc] at h; simp at h
  | some c =>
    rw [hc, Option.map_some'] at h
    exact ⟨c, cellAt_mem hc, Option.some.inj h⟩

lemma initGrid_only_wall {a b : Int} {tt : CellType}
    (h : typeAt initGrid a b = some tt) : tt = CellType.wall := by
  rcases typeAt_mem h with ⟨c, hc, rfl⟩
  exact initGrid_all_wall c hc

/-- One unfolding of the carve loop on a nonempty stack. -/
lemma carveLoop_cons (pick : Nat → Nat) (fuel t : Nat) (x y : Int)
    (rest vis : List Pos) (g : Grid) :
    carveLoop pick (fuel + 1) t ((x, y) :: rest) vis g =
      if (carveNeighbors vis x y).length = 0 then
        carveLoop pick fuel t rest vis g
      else
        carveLoop pick fuel (t + 1)
          ((((carveNeighbors vis x y).getD
              (pick t % (carveNeighbors vis x y).length) (0, 0, 0, 0)).1,
            ((carveNeighbors vis x y).getD
              (pick t % (carveNeighbors vis x y).length) (0, 0, 0, 0)).2.1) ::
            (x, y) :: rest)
          ((((carveNeighbors vis x y).getD
              (pick t % (carveNeighbors vis x y).length) (0, 0, 0, 0)).1,
            ((carveNeighbors vis x y).getD
              (pick t % (carveNeighbors vis x y).length) (0, 0, 0, 0)).2.1) :: vis)
          (setType (setType g
            (x + ((carveNeighbors vis x y).getD
              (pick t % (carveNeighbors vis x y).length) (0, 0, 0, 0)).2.2.1)
            (y + ((carveNeighbors vis x y).getD
              (pick t % (carveNeighbors vis x y).length) (0, 0, 0, 0)).2.2.2)
            CellType.empty)
            ((carveNeighbors vis x y).getD
              (pick t % (carveNeighbors vis x y).length) (0, 0, 0, 0)).1
            ((carveNeighbors vis x y).getD
              (pick t % (carveNeighbors vis x y).length) (0, 0, 0, 0)).2.1
            CellType.empty) := rfl

/-- After the carve, some cardinal neighbor of the origin - the first carved
midpoint, (1,2) or (2,1) by the first oracle choice - is empty, and the
origin itself is empty. -/
lemma carved_mid_empty (o : GenOracle) :
    typeAt (carvedGrid o) 1 1 = some CellType.empty ∧
    ∃ p : Pos, (p = (1, 2) ∨ p = (2, 1)) ∧
      typeAt (carvedGrid o) p.1 p.2 = some CellType.empty := by
  have hg1 : gridWF (setType initGrid 1 1 CellType.empty) :=
    gridWF_setType initGrid_WF 1 1 _
  have h11 : typeAt (setType initGrid 1 1 CellType.empty) 1 1 =
      some CellType.empty := by decide
  have hns : carveNeighbors [(1, 1)] 1 1 =
      [(1, 3, 0, 1), (3, 1, 1, 0)] := by decide
  have hunfold : carvedGrid o = carveLoop o.carvePick (201 + 1) 0 [(1, 1)]
      [(1, 1)] (setType initGrid 1 1 CellType.empty) := rfl
  have hmlt : o.carvePick 0 % 2 < 2 := Nat.mod_lt _ (by omega)
  have hm : o.carvePick 0 % 2 = 0 ∨ o.carvePick 0 % 2 = 1 := by omega
  rw [hunfold, carveLoop_cons, hns]
  have hlen : ¬((([(1, 3, 0, 1), (3, 1, 1, 0)] :
      List (Int × Int × Int × Int))).length = 0) := by decide
  rw [if_neg hlen]
  have hlen2 : (([(1, 3, 0, 1), (3, 1, 1, 0)] :
      List (Int × Int × Int × Int))).length = 2 := rfl
  rw [hlen2]
  rcases hm with hm | hm
  · rw [hm]
    constructor
    · refine carve_preserves_empty ?_ ?_
      · exact gridWF_setType (gridWF_setType hg1 _ _ _) _ _ _
      · show typeAt (setType (setType (setType initGrid 1 1 CellType.empty)
          (1 + 0) (1 + 1) CellType.empty) 1 3 CellType.empty) 1 1 =
            some CellType.empty
        decide
    · refine ⟨(1, 2), Or.inl rfl, ?_⟩
      refine carve_preserves_empty ?_ ?_
      · exact gridWF_setType (gridWF_setType hg1 _ _ _) _ _ _
      · show typeAt (setType (setType (setType initGrid 1 1 CellType.empty)
          (1 + 0) (1 + 1) CellType.empty) 1 3 CellType.empty) 1 2 =
            some CellType.empty
        decide
  · rw [hm]
    constructor
    · refine carve_preserves_empty ?_ ?_
      · exact gridWF_setType (gridWF_setType hg1 _ _ _) _ _ _
      · show typeAt (setType (setType (setType initGrid 1 1 CellType.empty)
          (1 + 1) (1 + 0) CellType.empty) 3 1 CellType.empty) 1 1 =
            some CellType.empty
        decide
    · refine ⟨(2, 1), Or.inr rfl, ?_⟩
      refine carve_preserves_empty ?_ ?_
      · exact gridWF_setType (gridWF_setType hg1 _ _ _) _ _ _
      · show typeAt (setType (setType (setType initGrid 1 1 CellType.empty)
          (1 + 1) (1 + 0) CellType.empty) 2 1 CellType.empty) 2 1 =
            some CellType.empty
        decide

lemma carvedGrid_WF (o : GenOracle) : gridWF (carvedGrid o) := by
  unfold carvedGrid
  exact (carveAux _ _ _ _ _ _ (gridWF_setType initGrid_WF 1 1 _)).1

lemma carvedGrid_rows (o : GenOracle) : rowsOf (carvedGrid o) = 10 := by
  unfold carvedGrid
  rw [(carveAux _ _ _ _ _ _ (gridWF_setType initGrid_WF 1 1 _)).2.1,
    rowsOf_setType, rowsOf_initGrid]

lemma carvedGrid_cols (o : GenOracle) : colsOf (carvedGrid o) = 10 := by
  unfold carvedGrid
  rw [(carveAux _ _ _ _ _ _ (gridWF_setType initGrid_WF 1 1 _)).2.2.1,
    colsOf_setType, colsOf_initGrid]

lemma carvedGrid_no_start_goal (o : GenOracle) (a b : Int) :
    typeAt (carvedGrid o) a b ≠ some CellType.start ∧
    typeAt (carvedGrid o) a b ≠ some CellType.goal := by
  have hg1 : gridWF (setType initGrid 1 1 CellType.empty) :=
    gridWF_setType initGrid_WF 1 1 _
  have hfr := (carveAux o.carvePick carveFuel 0 [(1, 1)] [(1, 1)] _ hg1).2.2.2 a b
  have hbase : ∀ tt, typeAt (setType initGrid 1 1 CellType.empty) a b = some tt →
      tt = CellType.wall ∨ tt = CellType.empty := by
    intro tt h
    rcases typeAt_setType_cases initGrid_WF 1 1 a b CellType.empty with h1 | ⟨-, -, h1⟩
    · rw [h1] at h
      exact Or.inl (initGrid_only_wall h)
    · rw [h1] at h
      exact Or.inr (Option.some.inj h).symm
  constructor
  · intro hc
    unfold carvedGrid at hc
    rcases hfr with h1 | h1
    · rw [hc] at h1
      rcases hbase _ h1.symm with h2 | h2 <;> simp at h2
    · rw [hc] at h1
      simp at h1
  · intro hc
    unfold carvedGrid at hc
    rcases hfr with h1 | h1
    · rw [hc] at h1
      rcases hbase _ h1.symm with h2 | h2 <;> simp at h2
    · rw [hc] at h1
      simp at h1

end PortalMaze

namespace PortalMaze

lemma typeAt_some_cellAt {g : Grid} {a b : Int} {tt : CellType}
    (h : typeAt g a b = some tt) : ∃ c, cellAt g a b = some c ∧ c.type = tt := by
  unfold typeAt at h
  cases hc : cellAt g a b with
  | none => rw [hc] at h; simp at h
  | some c =>
    rw [hc, Option.map_some'] at h
    exact ⟨c, rfl, Option.some.inj h⟩

lemma gridWithStart_WF (o : GenOracle) : gridWF (gridWithStart o) :=
  gridWF_setType (carvedGrid_WF o) 1 1 _

lemma gridWithStart_rows (o : GenOracle) : rowsOf (gridWithStart o) = 10 := by
  unfold gridWithStart
  rw [rowsOf_setType, carvedGrid_rows]

lemma gridWithStart_cols (o : GenOracle) : colsOf (gridWithStart o) = 10 := by
  unfold gridWithStart
  rw [colsOf_setType, carvedGrid_cols]

lemma gridWithStart_start (o : GenOracle) :
    typeAt (gridWithStart o) 1 1 = some CellType.start := by
  rcases typeAt_some_cellAt (carved_mid_empty o).1 with ⟨c, hc, -⟩
  exact typeAt_setType_self (carvedGrid_WF o) hc _

lemma gridWithStart_start_unique (o : GenOracle) {a b : Int}
    (h : typeAt (gridWithStart o) a b = some CellType.start) : a = 1 ∧ b = 1 := by
  rcases typeAt_setType_cases (carvedGrid_WF o) 1 1 a b CellType.start with
    h1 | ⟨hab, -, -⟩
  · unfold gridWithStart at h
    rw [h1] at h
    exact absurd h (carvedGrid_no_start_goal o a b).1
  · exact hab

lemma gridWithStart_no_goal (o : GenOracle) (a b : Int) :
    typeAt (gridWithStart o) a b ≠ some CellType.goal := by
  intro h
  rcases typeAt_setType_cases (carvedGrid_WF o) 1 1 a b CellType.start with
    h1 | ⟨-, -, h1⟩
  · unfold gridWithStart at h
    rw [h1] at h
    exact (carvedGrid_no_start_goal o a b).2 h
  · unfold gridWithStart at h
    rw [h1] at h
    simp at h

lemma gridWithStart_mid (o : GenOracle) :
    ∃ p : Pos, (p = (1, 2) ∨ p = (2, 1)) ∧
      typeAt (gridWithStart o) p.1 p.2 = some CellType.empty := by
  rcases (carved_mid_empty o).2 with ⟨p, hp, hpe⟩
  refine ⟨p, hp, ?_⟩
  unfold gridWithStart
  rw [typeAt_setType_ne (carvedGrid_WF o) ?_ _]
  · exact hpe
  · rcases hp with rfl | rfl <;> simp

/-! ## Goal-placement BFS -/

lemma distExpand_mem (g : Grid) (x y : Int) (d : Nat) :
    ∀ (ms : List (Int × Int)) (q : List (Int × Int × Nat)) (dists : List Pos),
      ∀ e ∈ (distExpand g x y d ms q dists).1,
        e ∈ q ∨ ∃ m ∈ ms, e = (x + m.1, y + m.2, d + 1) ∧
          (0 ≤ x + m.1 ∧ x + m.1 < (GRID_SIZE : Int) ∧ 0 ≤ y + m.2 ∧
            y + m.2 < (GRID_SIZE : Int)) ∧
          typeAt g (x + m.1) (y + m.2) = some CellType.empty := by
  intro ms
  induction ms with
  | nil => intro q dists e he; exact Or.inl he
  | cons m ms ih =>
    intro q dists e he
    rw [distExpand] at he
    split at he
    · rename_i hcond
      rcases ih _ _ e he with h1 | ⟨m2, hm2, h2⟩
      · rcases List.mem_append.mp h1 with h3 | h3
        · exact Or.inl h3
        · rcases List.mem_singleton.mp h3 with rfl
          exact Or.inr ⟨m, List.mem_cons_self _ _, rfl,
            ⟨hcond.1.1, hcond.1.2.1, hcond.1.2.2.1, hcond.1.2.2.2⟩, hcond.2.1⟩
      · exact Or.inr ⟨m2, List.mem_cons_of_mem _ hm2, h2⟩
    · rcases ih _ _ e he with h1 | ⟨m2, hm2, h2⟩
      · exact Or.inl h1
      · exact Or.inr ⟨m2, List.mem_cons_of_mem _ hm2, h2⟩

lemma distExpand_ne_nil (g : Grid) (x y : Int) (d : Nat) :
    ∀ (ms : List (Int × Int)) (q : List (Int × Int × Nat)) (dists : List Pos),
      (q ≠ [] ∨ ∃ m ∈ ms,
        (0 ≤ x + m.1 ∧ x + m.1 < (GRID_SIZE : Int) ∧ 0 ≤ y + m.2 ∧
          y + m.2 < (GRID_SIZE : Int)) ∧
        typeAt g (x + m.1) (y + m.2) = some CellType.empty ∧
        ¬(((x + m.1, y + m.2) : Pos) ∈ dists)) →
      (distExpand g x y d ms q dists).1 ≠ [] := by
  intro ms
  induction ms with
  | nil =>
    intro q dists h
    rcases h with h | ⟨m, hm, -⟩
    · exact h
    · simp at hm
  | cons m ms ih =>
    intro q dists h
    rw [distExpand]
    split
    · refine ih _ _ (Or.inl ?_)
      simp
    · rename_i hcond
      rcases h with h | ⟨m2, hm2, h2⟩
      · exact ih _ _ (Or.inl h)
      · rcases List.mem_cons.mp hm2 with rfl | hm3
        · exact absurd ⟨⟨h2.1.1, h2.1.2.1, h2.1.2.2.1, h2.1.2.2.2⟩, h2.2.1, h2.2.2⟩
            hcond
        · exact ih _ _ (Or.inr ⟨m2, hm3, h2⟩)

lemma distLoop_cons (g : Grid) (fuel : Nat) (x y : Int) (d : Nat)
    (rest : List (Int × Int × Nat)) (dists : List Pos) (best : Nat) (gp : Pos) :
    distLoop g (fuel + 1) ((x, y, d) :: rest) dists best gp =
      distLoop g fuel (distExpand g x y d MOVES rest dists).1
        (distExpand g x y d MOVES rest dists).2
        (if best < d then d else best) (if best < d then (x, y) else gp) := rfl

lemma distLoop_best_mono (g : Grid) :
    ∀ (fuel : Nat) (q : List (Int × Int × Nat)) (dists : List Pos) (best : Nat)
      (gp : Pos), best ≤ (distLoop g fuel q dists best gp).2 := by
  intro fuel
  induction fuel with
  | zero => intro q dists best gp; exact le_refl _
  | succ fuel ih =>
    intro q dists best gp
    cases q with
    | nil => exact le_refl _
    | cons e rest =>
      obtain ⟨x, y, d⟩ := e
      rw [distLoop_cons]
      refine le_trans ?_ (ih _ _ _ _)
      split <;> omega

lemma distLoop_inv (g : Grid) :
    ∀ (fuel : Nat) (q : List (Int × Int × Nat)) (dists : List Pos) (best : Nat)
      (gp : Pos),
      (∀ e ∈ q, (e.2.2 = 0 ∧ ((e.1, e.2.1) : Pos) = (1, 1)) ∨
        (1 ≤ e.2.2 ∧ emptyChain g e.2.2 (e.1, e.2.1))) →
      ((best = 0 ∧ gp = (1, 1)) ∨ (1 ≤ best ∧ emptyChain g best gp)) →
      (((distLoop g fuel q dists best gp).2 = 0 ∧
          (distLoop g fuel q dists best gp).1 = (1, 1)) ∨
        (1 ≤ (distLoop g fuel q dists best gp).2 ∧
          emptyChain g (distLoop g fuel q dists best gp).2
            (distLoop g fuel q dists best gp).1)) := by
  intro fuel
  induction fuel with
  | zero => intro q dists best gp _ hbg; exact hbg
  | succ fuel ih =>
    intro q dists best gp hq hbg
    cases q with
    | nil => exact hbg
    | cons e rest =>
      obtain ⟨x, y, d⟩ := e
      rw [distLoop_cons]
      have hhd := hq (x, y, d) (List.mem_cons_self _ _)
      refine ih _ _ _ _ ?_ ?_
      · intro e2 he2
        rcases distExpand_mem g x y d MOVES rest dists e2 he2 with h1 | ⟨m, hm, he, hb, hty⟩
        · exact hq e2 (List.mem_cons_of_mem _ h1)
        · right
          have hch : emptyChain g (d + 1) (x + m.1, y + m.2) := by
            refine ⟨hb, hty, (x, y), ⟨m, hm, rfl⟩, ?_⟩
            rcases hhd with ⟨hd0, hpos⟩ | ⟨-, hchain⟩
            · simp only at hd0
              rw [hd0]
              simp only at hpos
              rw [show ((x, y) : Pos) = (1, 1) from hpos]
              rfl
            · exact hchain
          rw [he]
          exact ⟨Nat.succ_le_succ (Nat.zero_le d), hch⟩
      · split
        · rename_i hlt
          rcases hhd with ⟨hd0, -⟩ | ⟨hd1, hchain⟩
          · simp only at hd0; omega
          · exact Or.inr ⟨hd1, hchain⟩
        · exact hbg

/-- The goal scan ends on a cell at BFS distance at least 1, linked to the
origin by a chain of empty cells. -/
lemma goalScan_spec (o : GenOracle) :
    1 ≤ (goalScan o).2 ∧
    emptyChain (gridWithStart o) (goalScan o).2 (goalScan o).1 := by
  set g := gridWithStart o with hgdef
  rcases gridWithStart_mid o with ⟨p, hp, hpe⟩
  have hmid : ∃ m ∈ MOVES,
      (0 ≤ 1 + m.1 ∧ 1 + m.1 < (GRID_SIZE : Int) ∧ 0 ≤ 1 + m.2 ∧
        1 + m.2 < (GRID_SIZE : Int)) ∧
      typeAt g (1 + m.1) (1 + m.2) = some CellType.empty ∧
      ¬(((1 + m.1, 1 + m.2) : Pos) ∈ ([(1, 1)] : List Pos)) := by
    rcases hp with rfl | rfl
    · exact ⟨(0, 1), by decide, by decide, hpe, by decide⟩
    · exact ⟨(1, 0), by decide, by decide, hpe, by decide⟩
  have hq1ne : (distExpand g 1 1 0 MOVES [] [(1, 1)]).1 ≠ [] :=
    distExpand_ne_nil g 1 1 0 MOVES [] [(1, 1)] (Or.inr hmid)
  have hunfold : goalScan o =
      distLoop g 101 (distExpand g 1 1 0 MOVES [] [(1, 1)]).1
        (distExpand g 1 1 0 MOVES [] [(1, 1)]).2 0 (1, 1) := by
    show distLoop g (101 + 1) [(1, 1, 0)] [(1, 1)] 0 (1, 1) = _
    rw [distLoop_cons]
    simp
  have hq1 : ∀ e ∈ (distExpand g 1 1 0 MOVES [] [(1, 1)]).1,
      e.2.2 = 1 ∧ emptyChain g 1 (e.1, e.2.1) := by
    intro e he
    rcases distExpand_mem g 1 1 0 MOVES _ _ e he with h1 | ⟨m, hm, he2, hb, hty⟩
    · simp at h1
    · rw [he2]
      exact ⟨rfl, ⟨hb, hty, (1, 1), ⟨m, hm, rfl⟩, rfl⟩⟩
  rcases List.exists_cons_of_ne_nil hq1ne with ⟨e, rest, heq⟩
  obtain ⟨x1, y1, d1⟩ := e
  have he1 := hq1 (x1, y1, d1) (by rw [heq]; exact List.mem_cons_self _ _)
  have hd1 : d1 = 1 := he1.1
  rw [hunfold, heq, hd1, show (101 : Nat) = 100 + 1 from rfl, distLoop_cons]
  rw [if_pos (by omega : 0 < 1)]
  have hres := distLoop_inv g 100
    (distExpand g x1 y1 1 MOVES rest (distExpand g 1 1 0 MOVES [] [(1, 1)]).2).1
    (distExpand g x1 y1 1 MOVES rest (distExpand g 1 1 0 MOVES [] [(1, 1)]).2).2
    1 (x1, y1) ?_ ?_
  rotate_left
  · intro e2 he2
    rcases distExpand_mem g x1 y1 1 MOVES rest _ e2 he2 with h1 | ⟨m, hm, he2e, hb, hty⟩
    · have h3 := hq1 e2 (by rw [heq]; exact List.mem_cons_of_mem _ h1)
      refine Or.inr ⟨by omega, ?_⟩
      rw [h3.1]
      exact h3.2
    · right
      have hch : emptyChain g (1 + 1) (x1 + m.1, y1 + m.2) :=
        ⟨hb, hty, (x1, y1), ⟨m, hm, rfl⟩, he1.2⟩
      rw [he2e]
      exact ⟨Nat.succ_le_succ (Nat.zero_le 1), hch⟩
  · exact Or.inr ⟨le_refl 1, he1.2⟩
  rcases hres with ⟨h0, -⟩ | h1
  · have := distLoop_best_mono g 100
      (distExpand g x1 y1 1 MOVES rest (distExpand g 1 1 0 MOVES [] [(1, 1)]).2).1
      (distExpand g x1 y1 1 MOVES rest (distExpand g 1 1 0 MOVES [] [(1, 1)]).2).2
      1 (x1, y1)
    omega
  · exact h1

end PortalMaze

namespace PortalMaze

lemma goalPos_empty (o : GenOracle) :
    (0 ≤ (goalScan o).1.1 ∧ (goalScan o).1.1 < (GRID_SIZE : Int) ∧
      0 ≤ (goalScan o).1.2 ∧ (goalScan o).1.2 < (GRID_SIZE : Int)) ∧
    typeAt (gridWithStart o) (goalScan o).1.1 (goalScan o).1.2 =
      some CellType.empty := by
  obtain ⟨hbest, hchain⟩ := goalScan_spec o
  cases hb : (goalScan o).2 with
  | zero => omega
  | succ n =>
    rw [hb] at hchain
    exact ⟨hchain.1, hchain.2.1⟩

lemma goalPos_ne_origin (o : GenOracle) : (goalScan o).1 ≠ (1, 1) := by
  intro hc
  have h1 := (goalPos_empty o).2
  rw [hc] at h1
  rw [gridWithStart_start o] at h1
  simp at h1

lemma gridWithGoal_WF (o : GenOracle) : gridWF (gridWithGoal o) :=
  gridWF_setType (gridWithStart_WF o) _ _ _

lemma gridWithGoal_rows (o : GenOracle) : rowsOf (gridWithGoal o) = 10 := by
  unfold gridWithGoal
  rw [rowsOf_setType, gridWithStart_rows]

lemma gridWithGoal_cols (o : GenOracle) : colsOf (gridWithGoal o) = 10 := by
  unfold gridWithGoal
  rw [colsOf_setType, gridWithStart_cols]

lemma gridWithGoal_goal (o : GenOracle) :
    typeAt (gridWithGoal o) (goalScan o).1.1 (goalScan o).1.2 =
      some CellType.goal := by
  rcases typeAt_some_cellAt (goalPos_empty o).2 with ⟨c, hc, -⟩
  exact typeAt_setType_self (gridWithStart_WF o) hc _

lemma gridWithGoal_start (o : GenOracle) :
    typeAt (gridWithGoal o) 1 1 = some CellType.start := by
  unfold gridWithGoal
  rw [typeAt_setType_ne (gridWithStart_WF o) ?_ _]
  · exact gridWithStart_start o
  · rintro ⟨h1, h2⟩
    apply goalPos_ne_origin o
    rw [show ((goalScan o).1 : Pos) = ((goalScan o).1.1, (goalScan o).1.2)
      from rfl, ← h1, ← h2]

lemma gridWithGoal_start_unique (o : GenOracle) {a b : Int}
    (h : typeAt (gridWithGoal o) a b = some CellType.start) : a = 1 ∧ b = 1 := by
  rcases typeAt_setType_cases (gridWithStart_WF o) (goalScan o).1.1
      (goalScan o).1.2 a b CellType.goal with h1 | ⟨-, -, h1⟩
  · unfold gridWithGoal at h
    rw [h1] at h
    exact gridWithStart_start_unique o h
  · unfold gridWithGoal at h
    rw [h1] at h
    simp at h

lemma gridWithGoal_goal_unique (o : GenOracle) {a b : Int}
    (h : typeAt (gridWithGoal o) a b = some CellType.goal) :
    a = (goalScan o).1.1 ∧ b = (goalScan o).1.2 := by
  rcases typeAt_setType_cases (gridWithStart_WF o) (goalScan o).1.1
      (goalScan o).1.2 a b CellType.goal with h1 | ⟨hab, -, -⟩
  · unfold gridWithGoal at h
    rw [h1] at h
    exact absurd h (gridWithStart_no_goal o a b)
  · exact hab

lemma gridWithGoal_nonwall (o : GenOracle) {a b : Int}
    (h : typeAt (gridWithStart o) a b = some CellType.empty) :
    ∃ tt, typeAt (gridWithGoal o) a b = some tt ∧ tt ≠ CellType.wall := by
  rcases typeAt_setType_cases (gridWithStart_WF o) (goalScan o).1.1
      (goalScan o).1.2 a b CellType.goal with h1 | ⟨-, -, h1⟩
  · exact ⟨CellType.empty, by unfold gridWithGoal; rw [h1]; exact h, by simp⟩
  · exact ⟨CellType.goal, h1, by simp⟩

/-! ## Final attempt grid -/

lemma buildAttempt_WF (o : GenOracle) : gridWF (buildAttempt o) :=
  (punchHoles_frame o ((placePortals_frame o (gridWithGoal_WF o)).1)).1

lemma buildAttempt_rows (o : GenOracle) : rowsOf (buildAttempt o) = 10 := by
  unfold buildAttempt
  rw [(punchHoles_frame o ((placePortals_frame o (gridWithGoal_WF o)).1)).2.1,
    (placePortals_frame o (gridWithGoal_WF o)).2.1, gridWithGoal_rows]

lemma buildAttempt_cols (o : GenOracle) : colsOf (buildAttempt o) = 10 := by
  unfold buildAttempt
  rw [(punchHoles_frame o ((placePortals_frame o (gridWithGoal_WF o)).1)).2.2.1,
    (placePortals_frame o (gridWithGoal_WF o)).2.2.1, gridWithGoal_cols]

/-- Pointwise relation between the step-4 grid and the final attempt grid:
unchanged, empty turned portal, or wall opened. -/
lemma buildAttempt_cases (o : GenOracle) (a b : Int) :
    typeAt (buildAttempt o) a b = typeAt (gridWithGoal o) a b ∨
    (typeAt (gridWithGoal o) a b = some CellType.empty ∧
      typeAt (buildAttempt o) a b = some CellType.portal) ∨
    (typeAt (gridWithGoal o) a b = some CellType.wall ∧
      typeAt (buildAttempt o) a b = some CellType.empty) := by
  have hpp := placePortals_frame o (gridWithGoal_WF o)
  have hph := punchHoles_frame o hpp.1
  rcases hph.2.2.2 a b with h1 | ⟨hw, h1⟩
  · rcases hpp.2.2.2 a b with h2 | ⟨he, h2⟩
    · exact Or.inl (h1.trans h2)
    · exact Or.inr (Or.inl ⟨he, h1.trans h2⟩)
  · rcases hpp.2.2.2 a b with h2 | ⟨he, h2⟩
    · rw [h2] at hw
      exact Or.inr (Or.inr ⟨hw, h1⟩)
    · rw [h2] at hw
      simp at hw

lemma buildAttempt_start (o : GenOracle) :
    typeAt (buildAttempt o) 1 1 = some CellType.start := by
  rcases buildAttempt_cases o 1 1 with h | ⟨he, -⟩ | ⟨hw, -⟩
  · rw [h]
    exact gridWithGoal_start o
  · rw [gridWithGoal_start o] at he
    simp at he
  · rw [gridWithGoal_start o] at hw
    simp at hw

lemma buildAttempt_start_unique (o : GenOracle) {a b : Int}
    (h : typeAt (buildAttempt o) a b = some CellType.start) : a = 1 ∧ b = 1 := by
  rcases buildAttempt_cases o a b with h1 | ⟨-, h1⟩ | ⟨-, h1⟩
  · rw [h] at h1
    exact gridWithGoal_start_unique o h1.symm
  · rw [h] at h1
    simp at h1
  · rw [h] at h1
    simp at h1

lemma buildAttempt_goal (o : GenOracle) :
    typeAt (buildAttempt o) (goalScan o).1.1 (goalScan o).1.2 =
      some CellType.goal := by
  rcases buildAttempt_cases o (goalScan o).1.1 (goalScan o).1.2 with
    h | ⟨he, -⟩ | ⟨hw, -⟩
  · rw [h]
    exact gridWithGoal_goal o
  · rw [gridWithGoal_goal o] at he
    simp at he
  · rw [gridWithGoal_goal o] at hw
    simp at hw

lemma buildAttempt_goal_unique (o : GenOracle) {a b : Int}
    (h : typeAt (buildAttempt o) a b = some CellType.goal) :
    a = (goalScan o).1.1 ∧ b = (goalScan o).1.2 := by
  rcases buildAttempt_cases o a b with h1 | ⟨-, h1⟩ | ⟨-, h1⟩
  · rw [h] at h1
    exact gridWithGoal_goal_unique o h1.symm
  · rw [h] at h1
    simp at h1
  · rw [h] at h1
    simp at h1

lemma buildAttempt_nonwall (o : GenOracle) {a b : Int}
    (h : typeAt (gridWithStart o) a b = some CellType.empty) :
    ∃ tt, typeAt (buildAttempt o) a b = some tt ∧ tt ≠ CellType.wall := by
  rcases gridWithGoal_nonwall o h with ⟨tt, htt, hne⟩
  rcases buildAttempt_cases o a b with h1 | ⟨-, h1⟩ | ⟨hw, h1⟩
  · exact ⟨tt, h1.trans htt, hne⟩
  · exact ⟨CellType.portal, h1, by simp⟩
  · rw [htt] at hw
    cases hw
    exact absurd rfl hne

end PortalMaze

namespace PortalMaze

/-! ## Counting cells on well-formed grids -/

lemma cellsOf_nodup {g : Grid} (hg : gridWF g) : (cellsOf g).Nodup := by
  unfold cellsOf
  rw [List.nodup_flatten]
  constructor
  · intro row hrow
    rcases List.get?_of_mem hrow with ⟨yi, hyi⟩
    rw [List.nodup_iff_injective_get]
    intro i j hij
    have hi := hg.2 yi i.val row (row.get i) hyi (List.get?_eq_get i.isLt)
    have hj := hg.2 yi j.val row (row.get j) hyi (List.get?_eq_get j.isLt)
    apply Fin.ext
    have hx : ((i.val : Nat) : Int) = (j.val : Nat) := by
      rw [← hi.1, ← hj.1, hij]
    omega
  · rw [List.pairwise_iff_get]
    intro i j hij
    intro c hci hcj
    rcases List.get?_of_mem hci with ⟨xi, hxi⟩
    rcases List.get?_of_mem hcj with ⟨xj, hxj⟩
    have hi := hg.2 i.val xi (g.get i) c (List.get?_eq_get i.isLt) hxi
    have hj := hg.2 j.val xj (g.get j) c (List.get?_eq_get j.isLt) hxj
    have : ((i.val : Nat) : Int) = (j.val : Nat) := by rw [← hi.2, ← hj.2]
    omega

lemma countType_eq_one {g : Grid} (hg : gridWF g) {c : Cell} {tt : CellType}
    (hc : c ∈ cellsOf g) (hct : c.type = tt)
    (huniq : ∀ c2 ∈ cellsOf g, c2.type = tt → c2 = c) :
    countType g tt = 1 := by
  obtain ⟨l1, l2, hsplit⟩ := List.append_of_mem hc
  have hnd := cellsOf_nodup hg
  rw [hsplit] at hnd
  rw [List.nodup_append] at hnd
  have hcl2 : c ∉ l2 := (List.nodup_cons.mp hnd.2.1).1
  have hcl1 : c ∉ l1 := fun hmem => hnd.2.2 hmem (List.mem_cons_self c l2)
  unfold countType
  rw [hsplit, List.countP_append, List.countP_cons]
  have h1 : l1.countP (fun c2 => c2.type == tt) = 0 := by
    rw [List.countP_eq_zero]
    intro a ha hpa
    rw [beq_iff_eq] at hpa
    have := huniq a (by rw [hsplit]; exact List.mem_append.mpr (Or.inl ha)) hpa
    exact hcl1 (this ▸ ha)
  have h2 : l2.countP (fun c2 => c2.type == tt) = 0 := by
    rw [List.countP_eq_zero]
    intro a ha hpa
    rw [beq_iff_eq] at hpa
    have := huniq a (by
      rw [hsplit]
      exact List.mem_append.mpr (Or.inr (List.mem_cons_of_mem _ ha))) hpa
    exact hcl2 (this ▸ ha)
  have h3 : (c.type == tt) = true := by rw [beq_iff_eq]; exact hct
  rw [h1, h2, h3, if_pos rfl]

lemma foldl_pick_none {tt : CellType} :
    ∀ (l : List Cell) (acc : Option Pos), (∀ c2 ∈ l, c2.type ≠ tt) →
      l.foldl (fun acc c => if c.type = tt then some (c.x, c.y) else acc) acc =
        acc := by
  intro l
  induction l with
  | nil => intro acc _; rfl
  | cons a l ih =>
    intro acc h
    rw [List.foldl_cons, if_neg (h a (List.mem_cons_self _ _))]
    exact ih acc (fun c2 hc2 => h c2 (List.mem_cons_of_mem _ hc2))

lemma foldl_pick_unique {tt : CellType} {c : Cell} :
    ∀ (l : List Cell) (acc : Option Pos), c ∈ l → c.type = tt →
      (∀ c2 ∈ l, c2.type = tt → c2 = c) →
      l.foldl (fun acc c => if c.type = tt then some (c.x, c.y) else acc) acc =
        some (c.x, c.y) := by
  intro l
  induction l with
  | nil => intro acc hc _ _; simp at hc
  | cons a l ih =>
    intro acc hc hct huniq
    rw [List.foldl_cons]
    by_cases hcl : c ∈ l
    · exact ih _ hcl hct (fun c2 hc2 => huniq c2 (List.mem_cons_of_mem _ hc2))
    · have hac : a = c := by
        rcases List.mem_cons.mp hc with h | h
        · exact h.symm
        · exact absurd h hcl
      subst hac
      rw [if_pos hct]
      refine foldl_pick_none l _ (fun c2 hc2 hc2t => ?_)
      exact hcl ((huniq c2 (List.mem_cons_of_mem _ hc2) hc2t) ▸ hc2)

/-- Exactly one start, exactly one goal on the attempt grid, and the
endpoint scan finds them at the expected positions. -/
lemma buildAttempt_endpoints (o : GenOracle) :
    countType (buildAttempt o) CellType.start = 1 ∧
    countType (buildAttempt o) CellType.goal = 1 ∧
    findStart (buildAttempt o) = some (1, 1) ∧
    findGoal (buildAttempt o) = some (goalScan o).1 := by
  have hWF := buildAttempt_WF o
  rcases typeAt_some_cellAt (buildAttempt_start o) with ⟨cs, hcs, hcst⟩
  rcases typeAt_some_cellAt (buildAttempt_goal o) with ⟨cg, hcg, hcgt⟩
  have hcsm := cellAt_mem hcs
  have hcgm := cellAt_mem hcg
  have hcsco := cellAt_coords hWF hcs
  have hcgco := cellAt_coords hWF hcg
  have huniqs : ∀ c2 ∈ cellsOf (buildAttempt o), c2.type = CellType.start →
      c2 = cs := by
    intro c2 hc2 hc2t
    have h1 := mem_cellAt hWF hc2
    have h2 : typeAt (buildAttempt o) c2.x c2.y = some CellType.start := by
      unfold typeAt
      rw [h1, Option.map_some', hc2t]
    obtain ⟨hx, hy⟩ := buildAttempt_start_unique o h2
    rw [hx, hy] at h1
    rw [hcs] at h1
    exact (Option.some.inj h1).symm
  have huniqg : ∀ c2 ∈ cellsOf (buildAttempt o), c2.type = CellType.goal →
      c2 = cg := by
    intro c2 hc2 hc2t
    have h1 := mem_cellAt hWF hc2
    have h2 : typeAt (buildAttempt o) c2.x c2.y = some CellType.goal := by
      unfold typeAt
      rw [h1, Option.map_some', hc2t]
    obtain ⟨hx, hy⟩ := buildAttempt_goal_unique o h2
    rw [hx, hy] at h1
    rw [hcg] at h1
    exact (Option.some.inj h1).symm
  refine ⟨countType_eq_one hWF hcsm hcst huniqs,
    countType_eq_one hWF hcgm hcgt huniqg, ?_, ?_⟩
  · unfold findStart
    rw [foldl_pick_unique (cellsOf (buildAttempt o)) none hcsm hcst huniqs,
      hcsco.1, hcsco.2]
  · unfold findGoal
    rw [foldl_pick_unique (cellsOf (buildAttempt o)) none hcgm hcgt huniqg,
      hcgco.1, hcgco.2]

/-! ## Validity of every attempt -/

lemma chain_reach (o : GenOracle) {k : Int} (hk : 0 ≤ k) :
    ∀ {n : Nat} {p : Pos}, emptyChain (gridWithStart o) n p →
      ReachN (buildAttempt o) k n (1, 1, 0) (p.1, p.2, 0) := by
  have hmd : ∀ m ∈ MOVES, m ∈ DIRECTIONS := by decide
  intro n
  induction n with
  | zero =>
    intro p hp
    rw [show p = ((1 : Int), (1 : Int)) from hp]
    rfl
  | succ n ih =>
    intro p hp
    obtain ⟨hb, hty, q, ⟨m, hm, hpq⟩, hchain⟩ := hp
    have hp1 : p.1 = q.1 + m.1 := by rw [hpq]
    have hp2 : p.2 = q.2 + m.2 := by rw [hpq]
    have hreach := ih hchain
    refine reachN_snoc hreach ?_
    refine mem_successors.mpr (Or.inr ?_)
    rcases buildAttempt_nonwall o (show typeAt (gridWithStart o) (q.1 + m.1)
        (q.2 + m.2) = some CellType.empty by rw [← hp1, ← hp2]; exact hty) with
      ⟨tt, htt, hnw⟩
    rcases typeAt_some_cellAt htt with ⟨nb, hnb, hnbt⟩
    refine mem_moveSuccs.mpr ⟨m, hmd m hm, ?_, nb, hnb, ?_, ?_⟩
    · rw [buildAttempt_cols, buildAttempt_rows]
      rw [hp1, hp2] at hb
      have hgs : ((GRID_SIZE : Nat) : Int) = 10 := rfl
      rw [hgs] at hb
      exact hb
    · rw [if_neg (by rw [hnbt]; exact hnw)]
      simpa using hk
    · rw [if_neg (by rw [hnbt]; exact hnw)]
      rw [show ((p.1, p.2, (0 : Nat)) : Key) = (q.1 + m.1, q.2 + m.2, 0)
        from by rw [hp1, hp2]]

lemma attempt_valid (o : GenOracle) {k : Int} (hk : 0 ≤ k) :
    ∃ r, solveMaze (buildAttempt o) k = some r := by
  obtain ⟨-, -, hfs, hfg⟩ := buildAttempt_endpoints o
  have hreach : ReachN (buildAttempt o) k (goalScan o).2 (1, 1, 0)
      ((goalScan o).1.1, (goalScan o).1.2, 0) :=
    chain_reach o hk (goalScan_spec o).2
  obtain ⟨res, vf, hfull, -, hnone, hsome, -⟩ :=
    solve_main (buildAttempt_WF o) hk hfs hfg
  have hm : solveMaze (buildAttempt o) k = res := by
    unfold solveMaze
    rw [hfull]
  cases hres : res with
  | none => exact absurd hreach (hnone hres (goalScan o).2 0)
  | some r => exact ⟨r, by rw [hm, hres]⟩

end PortalMaze

namespace PortalMaze

set_option maxRecDepth 100000 in
set_option maxHeartbeats 1000000 in
/-- C2: for every break budget K in [0, 5] and every outcome of the modelled
randomness, the Level returned by generateRandomLevel has exactly one start
and one goal cell, the solver reports the grid reachable at budgets 0 and K,
and the two stored optimal step counts are exactly those two solver results.
(The proof shows the first attempt always validates, so the accepting branch
returns; the fallback is never reached for budgets in range.) -/
theorem C2_generator_valid (o : Nat → GenOracle) (k : Int) (hk0 : 0 ≤ k)
    (hk5 : k ≤ 5) :
    countType (generateRandomLevel o k).grid CellType.start = 1 ∧
    countType (generateRandomLevel o k).grid CellType.goal = 1 ∧
    ∃ r0 rk, solveMaze (generateRandomLevel o k).grid 0 = some r0 ∧
      solveMaze (generateRandomLevel o k).grid k = some rk ∧
      (generateRandomLevel o k).optimalStepsNoBreak = some r0.steps ∧
      (generateRandomLevel o k).optimalStepsWithBreak = some rk.steps := by
  obtain ⟨r0, h0⟩ := attempt_valid (o 0) (le_refl 0)
  obtain ⟨rk, hk2⟩ := attempt_valid (o 0) hk0
  have hcond : ((solveMaze (buildAttempt (o 0)) 0).isSome &&
      (solveMaze (buildAttempt (o 0)) k).isSome) = true := by
    rw [h0, hk2]
    rfl
  have hunroll : generateRandomLevel o k =
      { id := 0,
        name := "Random Sector " ++ toString ((o 0).nameNum % 900 + 100),
        grid := buildAttempt (o 0), maxBreaks := k,
        optimalStepsNoBreak :=
          (solveMaze (buildAttempt (o 0)) 0).map SolveResult.steps,
        optimalStepsWithBreak :=
          (solveMaze (buildAttempt (o 0)) k).map SolveResult.steps,
        createdAt := 0 } := by
    show genLoop o k (19 + 1) 0 [] = _
    rw [genLoop]
    rw [hcond]
    rfl
  have hgrid : (generateRandomLevel o k).grid = buildAttempt (o 0) := by
    rw [hunroll]
  have hnb : (generateRandomLevel o k).optimalStepsNoBreak =
      (solveMaze (buildAttempt (o 0)) 0).map SolveResult.steps := by
    rw [hunroll]
  have hwb : (generateRandomLevel o k).optimalStepsWithBreak =
      (solveMaze (buildAttempt (o 0)) k).map SolveResult.steps := by
    rw [hunroll]
  rw [hgrid, hnb, hwb]
  refine ⟨(buildAttempt_endpoints (o 0)).1, (buildAttempt_endpoints (o 0)).2.1,
    r0, rk, h0, hk2, ?_, ?_⟩
  · rw [h0]
    rfl
  · rw [hk2]
    rfl

theorem C2_generator_valid_witness :
    (0 : Int) ≤ 0 ∧ (0 : Int) ≤ 5 ∧
    (countType (generateRandomLevel (fun _ => zeroOracle) 0).grid
        CellType.start = 1 ∧
      countType (generateRandomLevel (fun _ => zeroOracle) 0).grid
        CellType.goal = 1 ∧
      ∃ r0 rk,
        solveMaze (generateRandomLevel (fun _ => zeroOracle) 0).grid 0 =
          some r0 ∧
        solveMaze (generateRandomLevel (fun _ => zeroOracle) 0).grid 0 =
          some rk ∧
        (generateRandomLevel (fun _ => zeroOracle) 0).optimalStepsNoBreak =
          some r0.steps ∧
        (generateRandomLevel (fun _ => zeroOracle) 0).optimalStepsWithBreak =
          some rk.steps) :=
  ⟨by decide, by decide,
    C2_generator_valid (fun _ => zeroOracle) 0 (by decide) (by decide)⟩

/-- When every attempt of a constant-oracle run fails validation, the loop
lands in the fallback applied to the last attempted grid. -/
lemma genLoop_const_fail {O : GenOracle} {k : Int}
    (hval : ((solveMaze (buildAttempt O) 0).isSome &&
      (solveMaze (buildAttempt O) k).isSome) = false) :
    ∀ (r i : Nat) (gprev : Grid),
      genLoop (fun _ => O) k (r + 1) i gprev = fallbackOf (buildAttempt O) k := by
  intro r
  induction r with
  | zero =>
    intro i gprev
    rw [genLoop]
    rw [hval]
    rfl
  | succ r ih =>
    intro i gprev
    rw [genLoop]
    rw [hval]
    rw [if_neg (by simp)]
    exact ih (i + 1) (buildAttempt O)

set_option maxRecDepth 1000000 in
set_option maxHeartbeats 1000000 in
/-- C7 counterexample: run generateRandomLevel with budget -1 (every attempt
then fails validation, because no move is within budget) under the all-zero
oracle.  The fallback executes (the returned name is the fallback marker),
but the returned Level is NOT a minimal hand-built 1x3 corridor with
trivially correct counts: its grid is the patched 10-row last-attempt grid,
it contains TWO goal cells (the stale one from the failed attempt plus the
patched one), and the stored with-break count 2 differs from what solve
returns on that grid and budget (none). -/
theorem C7_counterexample :
    (generateRandomLevel (fun _ => zeroOracle) (-1)).name = "Fallback Level" ∧
    (generateRandomLevel (fun _ => zeroOracle) (-1)).grid.length = 10 ∧
    countType (generateRandomLevel (fun _ => zeroOracle) (-1)).grid
      CellType.goal = 2 ∧
    (generateRandomLevel (fun _ => zeroOracle) (-1)).optimalStepsWithBreak =
      some 2 ∧
    solveMaze (generateRandomLevel (fun _ => zeroOracle) (-1)).grid (-1) =
      none := by
  have hm1 : solveMaze (buildAttempt zeroOracle) (-1) = none := by decide
  have hval : ((solveMaze (buildAttempt zeroOracle) 0).isSome &&
      (solveMaze (buildAttempt zeroOracle) (-1)).isSome) = false := by
    rw [hm1]
    exact Bool.and_false _
  have hmain : generateRandomLevel (fun _ => zeroOracle) (-1) =
      fallbackOf (buildAttempt zeroOracle) (-1) := by
    show genLoop (fun _ => zeroOracle) (-1) (19 + 1) 0 [] = _
    exact genLoop_const_fail hval 19 0 []
  rw [hmain]
  refine ⟨rfl, by decide, by decide, rfl, by decide⟩

set_option maxRecDepth 1000000 in
set_option maxHeartbeats 1000000 in
/-- C7 (amended): if every generation attempt fails validation, the generator
returns the fallback Level built by patching the LAST attempted grid in place
(start at (1,1), empty at (2,1), goal at (3,1)) with stored counts 2 and 2 -
leftover cells of the failed attempt (including its stale goal and portals)
remain in the returned GRID_SIZE x GRID_SIZE grid, so it need not be a 1x3
corridor and the stored counts need not match the solver. -/
theorem C7_fallback_patches_last_grid :
    (∀ (g : Grid) (k : Int), fallbackOf g k =
      { id := 0, name := "Fallback Level",
        grid := setType (setType (setType g 1 1 CellType.start) 2 1
          CellType.empty) 3 1 CellType.goal,
        maxBreaks := k, optimalStepsNoBreak := some 2,
        optimalStepsWithBreak := some 2, createdAt := 0 }) ∧
    generateRandomLevel (fun _ => zeroOracle) (-1) =
      fallbackOf (buildAttempt zeroOracle) (-1) := by
  refine ⟨fun g k => rfl, ?_⟩
  have hm1 : solveMaze (buildAttempt zeroOracle) (-1) = none := by decide
  have hval : ((solveMaze (buildAttempt zeroOracle) 0).isSome &&
      (solveMaze (buildAttempt zeroOracle) (-1)).isSome) = false := by
    rw [hm1]
    exact Bool.and_false _
  show genLoop (fun _ => zeroOracle) (-1) (19 + 1) 0 [] = _
  exact genLoop_const_fail hval 19 0 []

end PortalMaze
